import Mathlib

/-!
# Ordered streaming synthesis pipeline of `say.go`

A shallow embedding of the pipeline of `src/say.go` (`splitSentences`,
`generateAudio` with its cache helpers, and the three stages of `streamingTTS`)
together with the properties stated about it.

Conventions of the embedding:

* a Go `string` holding valid UTF-8 is the list of its code points (`List Char`);
* a Go `[]byte` is `Option Bytes`, `none` being the `nil` slice;
* a Go `error` is `Option GoError`, `none` being `nil`;
* a Go `int` is an `Int`.  The only arithmetic performed on indices is
  `nextPlayIndex++`, `len(sentences)-1` and the sentence number `i+1` of the debug
  messages; the first two stay below the length of a list held in memory, so no 64-bit
  wrap-around can occur and none is modelled;
* a run-time panic (index or slice bound out of range, assignment to a nil map) is
  the result `none` of an `Option`-valued function;
* the goroutines of `streamingTTS` communicate only through the two channels, so the
  pipeline is the composition of the three stages, each a function from the list of
  values it receives to the list of values it sends.
-/

namespace Aivisay

/-- A Go string holding valid UTF-8, as the list of its code points. -/
abbrev GoString := List Char

/-- The contents of a non-nil Go byte slice. -/
abbrev Bytes := List UInt8

/-- A non-nil Go `error`, identified with its message. -/
abbrev GoError := String

/-- The struct `AudioData` of `say.go`. -/
structure AudioData where
  Index : Int
  Buffer : Option Bytes
  Format : GoString
  Error : Option GoError
deriving DecidableEq

/-! ## The reorder goroutine of `streamingTTS` (lines 400-421) -/

/-- A Go `map[int]AudioData`: an association list handled only through `mapGet`,
`mapSet` and `mapDelete`, which keep at most one entry per key. -/
abbrev AudioMap := List (Int × AudioData)

/-- The lookup `v, exists := m[k]`; `none` when `exists` is false. -/
def mapGet : AudioMap → Int → Option AudioData
  | [], _ => none
  | (k', v) :: rest, k => if k' = k then some v else mapGet rest k

/-- The deletion `delete(m, k)`. -/
def mapDelete (m : AudioMap) (k : Int) : AudioMap :=
  m.filter (fun e => decide (e.1 ≠ k))

/-- The assignment `m[k] = v`, replacing the entry of `k` if there is one. -/
def mapSet (m : AudioMap) (k : Int) (v : AudioData) : AudioMap :=
  (k, v) :: mapDelete m k

/-- The variables of the reorder goroutine, with the values sent on `playChannel` so
far (oldest first). -/
structure ReorderState where
  audioBuffer : AudioMap
  nextPlayIndex : Int
  playChannel : List AudioData
deriving DecidableEq

/-- The state at `audioBuffer := make(map[int]AudioData); nextPlayIndex := 0`. -/
def ReorderState.init : ReorderState :=
  { audioBuffer := [], nextPlayIndex := 0, playChannel := [] }

/-- The statement `playChannel <- nextAudio`. -/
def ReorderState.send (st : ReorderState) (nextAudio : AudioData) : ReorderState :=
  { st with playChannel := st.playChannel ++ [nextAudio] }

/-- The statement `delete(audioBuffer, nextPlayIndex)`. -/
def ReorderState.deleteNext (st : ReorderState) : ReorderState :=
  { st with audioBuffer := mapDelete st.audioBuffer st.nextPlayIndex }

/-- The statement `nextPlayIndex++`. -/
def ReorderState.advance (st : ReorderState) : ReorderState :=
  { st with nextPlayIndex := st.nextPlayIndex + 1 }

/-- The statement `audioBuffer[audio.Index] = audio`. -/
def ReorderState.insert (st : ReorderState) (audio : AudioData) : ReorderState :=
  { st with audioBuffer := mapSet st.audioBuffer audio.Index audio }

/-- The inner `for { ... }` loop (lines 411-419), run for at most `fuel` tests of its
condition; `none` when the fuel runs out before the `break`. -/
def releaseLoop : Nat → ReorderState → Option ReorderState
  | 0, _ => none
  | fuel + 1, st =>
    match mapGet st.audioBuffer st.nextPlayIndex with
    | some nextAudio => releaseLoop fuel ((st.send nextAudio).deleteNext).advance
    | none => some st

/-- One iteration of `for audio := range audioChannel` (lines 407-420).  Each turn of
the inner loop removes an entry, so one test more than the number of entries is
enough fuel (`reorderStep_isSome`). -/
def reorderStep (st : ReorderState) (audio : AudioData) : Option ReorderState :=
  releaseLoop ((st.insert audio).audioBuffer.length + 1) (st.insert audio)

/-- The reorder goroutine from a given state, on the list of values received from
`audioChannel` until it is closed. -/
def reorderFrom (st : ReorderState) : List AudioData → Option ReorderState
  | [] => some st
  | audio :: rest =>
    match reorderStep st audio with
    | some st' => reorderFrom st' rest
    | none => none

/-- The reorder goroutine (lines 401-421) on the list of values received from
`audioChannel`: its final state, whose `playChannel` is what it has sent. -/
def reorderStage (arrivals : List AudioData) : Option ReorderState :=
  reorderFrom ReorderState.init arrivals

/-- The states the inner loop passes through: at each test of the condition, and after
each of the three statements of its body. -/
def releaseTrace : Nat → ReorderState → List ReorderState
  | 0, st => [st]
  | fuel + 1, st =>
    match mapGet st.audioBuffer st.nextPlayIndex with
    | some nextAudio =>
      st :: st.send nextAudio :: (st.send nextAudio).deleteNext ::
        releaseTrace fuel ((st.send nextAudio).deleteNext).advance
    | none => [st]

/-- Every state the reorder goroutine passes through from `st` on the given arrivals:
before each receive, after the insertion, and throughout the inner loop. -/
def reorderTraceFrom (st : ReorderState) : List AudioData → List ReorderState
  | [] => [st]
  | audio :: rest =>
    st :: releaseTrace ((st.insert audio).audioBuffer.length + 1) (st.insert audio) ++
      (match reorderStep st audio with
       | some st' => reorderTraceFrom st' rest
       | none => [])

/-- Every state of a run of the reorder goroutine on `arrivals`. -/
def reorderTrace (arrivals : List AudioData) : List ReorderState :=
  reorderTraceFrom ReorderState.init arrivals

/-! ### Invariants of the reorder goroutine -/

/-- What holds of the reorder state at every test of the inner loop's condition, for
any arrivals: entries are filed under their own index, the indices sent so far count
up from zero, and the cursor is the number of values sent. -/
structure ReorderState.Ordered (st : ReorderState) : Prop where
  keyed : ∀ e ∈ st.audioBuffer, e.2.Index = e.1
  sent : st.playChannel.map (fun a => a.Index) =
    (List.range st.playChannel.length).map Int.ofNat
  cursor : st.nextPlayIndex = st.playChannel.length

/-- What holds at every test of the inner loop's condition when the arrivals seen so
far have pairwise distinct, non-negative indices: nothing is lost or duplicated, and
no buffered key is below the cursor. -/
structure ReorderState.Tracked (seen : List AudioData) (st : ReorderState) : Prop where
  ordered : st.Ordered
  conserved : (st.playChannel ++ st.audioBuffer.map Prod.snd).Perm seen
  lower : ∀ e ∈ st.audioBuffer, st.nextPlayIndex ≤ e.1

/-! ## `splitSentences` (lines 315-338)

The Go standard library functions it calls are modelled on code points: offsets count
code points instead of bytes, which cuts a valid UTF-8 string at the same places. -/

/-- Membership in the character class of the regexp `([、。！？!?．])`. -/
def isTerminator (c : Char) : Bool :=
  c == '、' || c == '。' || c == '！' || c == '？' || c == '!' || c == '?' || c == '．'

/-- Go's `unicode.IsSpace`: the Latin-1 spaces `\t \n \v \f \r`, space, U+0085 and
U+00A0, and beyond Latin-1 the code points of the property `White_Space`. -/
def isSpace (c : Char) : Bool :=
  let n := c.toNat
  (9 ≤ n && n ≤ 13) || n == 0x20 || n == 0x85 || n == 0xA0 || n == 0x1680 ||
    (0x2000 ≤ n && n ≤ 0x200A) || n == 0x2028 || n == 0x2029 || n == 0x202F ||
    n == 0x205F || n == 0x3000

/-- Go's `strings.TrimSpace`: the string without its leading and trailing white space. -/
def trimSpace (s : GoString) : GoString :=
  (s.dropWhile isSpace).rdropWhile isSpace

/-- The Go slice expression `s[lo:hi]` (for `lo ≤ hi ≤ len(s)`). -/
def slice (s : GoString) (lo hi : Nat) : GoString :=
  (s.take hi).drop lo

/-- The matches of the regexp in a string whose first code point has offset `off`:
every terminator, as the pair of its start and end offsets. -/
def findAllIndexFrom (off : Nat) : GoString → List (Nat × Nat)
  | [] => []
  | c :: cs =>
    if isTerminator c then (off, off + 1) :: findAllIndexFrom (off + 1) cs
    else findAllIndexFrom (off + 1) cs

/-- Go's `re.FindAllStringIndex(s, -1)` for the regexp of `splitSentences`. -/
def reFindAllStringIndex (s : GoString) : List (Nat × Nat) :=
  findAllIndexFrom 0 s

/-- Go's `re.FindAllString(s, -1)`: the matched substrings, left to right. -/
def reFindAllString (s : GoString) : List GoString :=
  (reFindAllStringIndex s).map (fun m => slice s m.1 m.2)

/-- The loop of Go's `Regexp.Split` over the matches; the result is the substrings
collected, then `beg`, then `end`. -/
def splitLoop (s : GoString) :
    List (Nat × Nat) → Nat → Nat → List GoString → List GoString × Nat × Nat
  | [], beg, stop, strings => (strings, beg, stop)
  | m :: ms, beg, _, strings =>
    splitLoop s ms m.2 m.1 (if m.2 ≠ 0 then strings ++ [slice s beg m.1] else strings)

/-- Go's `re.Split(s, -1)`: `[""]` for the empty string; otherwise the substrings
between the matches, followed by the rest of the string unless the last match starts
at the end of the string. -/
def reSplit (s : GoString) : List GoString :=
  if s.length = 0 then [[]]
  else
    let r := splitLoop s (reFindAllStringIndex s) 0 0 []
    if r.2.2 ≠ s.length then r.1 ++ [slice s r.2.1 s.length] else r.1

/-- The loop `for i, part := range parts` of `splitSentences`, from index `i`, with the
sentences appended so far. -/
def sentencesLoop (matchStrs : List GoString) :
    Nat → List GoString → List GoString → List GoString
  | _, [], sentences => sentences
  | i, part :: rest, sentences =>
    if trimSpace part = [] then sentencesLoop matchStrs (i + 1) rest sentences
    else
      let sentence := trimSpace part
      let sentence := if i < matchStrs.length then sentence ++ matchStrs.getD i [] else sentence
      if sentence ≠ [] then sentencesLoop matchStrs (i + 1) rest (sentences ++ [sentence])
      else sentencesLoop matchStrs (i + 1) rest sentences

/-- The function `splitSentences` of `say.go`. -/
def splitSentences (text : GoString) : List GoString :=
  let parts := reSplit text
  let matchStrs := reFindAllString text
  sentencesLoop matchStrs 0 parts []

/-! ### The statements about `splitSentences`, in the words of the specification -/

/-- The fragments obtained by cutting the text at every terminator: the stretches of
text between consecutive terminators, before the first and after the last. -/
def fragments (text : GoString) : List GoString :=
  text.splitOnP isTerminator

/-- A fragment whose whitespace-trimmed content is non-empty. -/
def nonBlank (fragment : GoString) : Bool :=
  decide (trimSpace fragment ≠ [])

/-- The stretch `body` of `text` runs from just after the previous cut (or from the
start of the text) and is followed by the terminator `t`, or by the end of the text
when `t` is empty. -/
def CutAt (text body t : GoString) : Prop :=
  ∃ pre rest, text = pre ++ body ++ t ++ rest ∧
    (∀ c ∈ body, isTerminator c = false) ∧
    (pre = [] ∨ ∃ pre' c, pre = pre' ++ [c] ∧ isTerminator c = true) ∧
    ((∃ c, t = [c] ∧ isTerminator c = true) ∨ (t = [] ∧ rest = []))

/-- The text cut immediately after every terminator: the terminated stretches, each
with its terminator, and the trailing remainder that no terminator follows.  The
proofs go through this decomposition. -/
def cut : GoString → List (GoString × Char) × GoString
  | [] => ([], [])
  | c :: cs =>
    if isTerminator c then (([], c) :: (cut cs).1, (cut cs).2)
    else
      match (cut cs).1 with
      | [] => ([], c :: (cut cs).2)
      | (body, t) :: more => ((c :: body, t) :: more, (cut cs).2)

/-- The unit is the whitespace-trimmed stretch of the text from just after the previous
cut up to and including its terminator, or the trimmed trailing remainder. -/
def TrimmedThroughTerminator (text unit : GoString) : Prop :=
  ∃ body t, CutAt text body t ∧ unit = trimSpace (body ++ t)

/-- The unit is the whitespace-trimmed stretch of the text from just after the previous
cut up to its terminator, followed by that terminator when there is one. -/
def TrimmedBeforeTerminator (text unit : GoString) : Prop :=
  ∃ body t, CutAt text body t ∧ unit = trimSpace body ++ t

/-! ## Configuration, effects and collaborators

The pipeline acts on the outside world through HTTP calls to a synthesis backend, the
cache files, the external `play` command, the terminal and the clock.  What it does is
recorded in logs of `Event`s; how the outside world answers is given by an `Env`. -/

/-- A Go `float64`, which the pipeline only forwards to the backend: its bit pattern. -/
abbrev Float64 := UInt64

/-- The struct `Config` of `say.go`; `SleepTime` is a `time.Duration` in nanoseconds. -/
structure Config where
  Source : GoString
  LocalURL : GoString
  SpeakerID : GoString
  CloudURL : GoString
  APIKey : GoString
  ModelUUID : GoString
  Speed : Float64
  Pitch : Float64
  Volume : Float64
  CacheDir : GoString
  SleepTime : Int
  Debug : Bool
deriving DecidableEq

/-- The messages `streamingTTS` passes to `debugLog`, by format string; the sentence
number is the index plus one. -/
inductive DebugMsg where
  | generating (number : Int) (sentence : GoString)
  | generated (number : Int) (sentence : GoString)
  | generationError (number : Int) (err : GoError)
  | playError (number : Int) (err : GoError)
deriving DecidableEq

/-- An observable action of the program. -/
inductive Event where
  /-- A line written by `fmt.Println`. -/
  | println (line : GoString)
  /-- A line written to standard error by `debugLog`. -/
  | debug (msg : DebugMsg)
  /-- The HTTP exchange of `generateAudioLocal` for a text. -/
  | localCall (text : GoString)
  /-- The HTTP exchange of `generateAudioCloud` for a text. -/
  | cloudCall (text : GoString)
  /-- A run of the external `play` command by `playAudio`. -/
  | play (audioData : Bytes) (format : GoString)
  /-- A call `time.Sleep(d)`. -/
  | sleep (d : Int)
deriving DecidableEq

/-- What a backend function returns from its synthesis request: on success the bytes
read by `io.ReadAll`, a non-nil slice; on failure an error, with no data or with the
part of the body read before `io.ReadAll` failed. -/
inductive BackendReply where
  | ok (audioData : Bytes)
  | failed (audioData : Option Bytes) (err : GoError)
deriving DecidableEq

/-- What the first HTTP exchange of `generateAudioLocal` (lines 191-213) yields. -/
inductive AudioQueryReply where
  /-- The request could not be created or sent, the status was not 200, or the body
  did not decode into a map: an error is returned. -/
  | failed (err : GoError)
  /-- Status 200 with the JSON value `null`: `Decode` succeeds and leaves `audioQuery`
  a nil map. -/
  | null
  /-- Status 200 with a JSON object: `audioQuery` is a non-nil map. -/
  | object
deriving DecidableEq

/-- The state the generation side works on: the cache files with their contents, and
the log of what `generateAudio` and the generation goroutine have done. -/
structure World where
  files : List (GoString × Bytes)
  log : List Event
deriving DecidableEq

/-- The behaviour of the collaborators and of the library functions the program is
parametric in.  The backends, the file system and the audio sink may answer
differently at every call: they see everything that has happened so far.  Every call
to a collaborator is taken to return. -/
structure Env where
  /-- The hex encoding of the SHA-256 digest of a text. -/
  sha256Hex : GoString → GoString
  /-- Go's `filepath.Join` of two elements. -/
  filepathJoin : GoString → GoString → GoString
  /-- The outcome of the `/audio_query` exchange of `generateAudioLocal`. -/
  localQuery : Config → GoString → World → AudioQueryReply
  /-- The outcome of the `/synthesis` exchange of `generateAudioLocal` (lines 223-243). -/
  localSynthesis : Config → GoString → World → BackendReply
  /-- The outcome of the HTTP exchange of `generateAudioCloud`. -/
  cloudBackend : Config → GoString → World → BackendReply
  /-- The failure of `os.ReadFile` on an existing file, if it fails: what it returns
  besides the error. -/
  readFileError : GoString → World → Option (Option Bytes × GoError)
  /-- The error of `os.MkdirAll` on a non-empty path, if it fails. -/
  mkdirAllError : GoString → World → Option GoError
  /-- The failure of `os.WriteFile`, if it fails: its error and the files it leaves. -/
  writeFileError : GoString → Bytes → World → Option (GoError × List (GoString × Bytes))
  /-- The error returned by `cmd.Run()` in `playAudio`, if any, given the log of the
  main goroutine so far. -/
  sink : Bytes → GoString → List Event → Option GoError

/-- The function `debugLog`, on a log. -/
def debugLog (cfg : Config) (msg : DebugMsg) (log : List Event) : List Event :=
  if cfg.Debug then log ++ [Event.debug msg] else log

/-! ## The cache and `generateAudio` (lines 143-187 and 281-306) -/

/-- The function `getCacheFilename`. -/
def getCacheFilename (env : Env) (cfg : Config) (text : GoString) : GoString :=
  let hash := env.sha256Hex text
  let subdir := if cfg.Source = "local".toList then cfg.SpeakerID else cfg.ModelUUID
  let ext := if cfg.Source = "local".toList then "wav".toList else "mp3".toList
  let cacheDir := env.filepathJoin cfg.CacheDir subdir
  env.filepathJoin cacheDir (hash ++ ".".toList ++ ext)

/-- The content of a file, `none` when it does not exist. -/
def readFile (files : List (GoString × Bytes)) (path : GoString) : Option Bytes :=
  (files.find? (fun f => decide (f.1 = path))).map Prod.snd

/-- The files after `os.WriteFile(path, data, 0644)`. -/
def writeFile (files : List (GoString × Bytes)) (path : GoString) (data : Bytes) :
    List (GoString × Bytes) :=
  (path, data) :: files.filter (fun f => decide (f.1 ≠ path))

/-- The function `checkCache`: `(nil, nil)` when caching is disabled or `os.Stat` finds
no file, otherwise what `os.ReadFile` returns.  (When `os.Stat` fails for another
reason the source goes on to `os.ReadFile`; `generateAudio` treats every outcome but
a successful read alike.) -/
def checkCache (env : Env) (cfg : Config) (text : GoString) (cacheEnabled : Bool)
    (w : World) : Option Bytes × Option GoError :=
  if !cacheEnabled then (none, none)
  else
    let filepath := getCacheFilename env cfg text
    match readFile w.files filepath with
    | none => (none, none)
    | some data =>
      match env.readFileError filepath w with
      | some (partialData, err) => (partialData, some err)
      | none => (some data, none)

/-- Go's `strings.LastIndex(s, "/")`: the offset of the last `/`, or `-1`. -/
def lastIndexSlash (s : GoString) : Int :=
  if '/' ∈ s then (s.length : Int) - 1 - (s.reverse.indexOf '/' : Nat) else -1

/-- The Go slice expression `s[:hi]`, which panics (`none`) when `hi` is out of range. -/
def sliceTo (s : GoString) (hi : Int) : Option GoString :=
  if 0 ≤ hi ∧ hi ≤ (s.length : Int) then some (s.take hi.toNat) else none

/-- Go's `os.MkdirAll(dir, 0755)`: on the empty path it fails on every file system
(`mkdir` of the empty path is `ENOENT`); otherwise the file system decides. -/
def mkdirAll (env : Env) (dir : GoString) (w : World) : Option GoError :=
  if dir = [] then some "mkdir : no such file or directory" else env.mkdirAllError dir w

/-- The function `saveToCache` (lines 174-187); a nil `data` is written as an empty
file.  The result is `none` when `filepath[:strings.LastIndex(filepath, "/")]` panics;
the error of `os.MkdirAll` is returned before anything is written. -/
def saveToCache (env : Env) (cfg : Config) (text : GoString) (data : Option Bytes)
    (cacheEnabled : Bool) (w : World) : Option (Option GoError × World) :=
  if !cacheEnabled then some (none, w)
  else
    let filepath := getCacheFilename env cfg text
    match sliceTo filepath (lastIndexSlash filepath) with
    | none => none
    | some dir =>
      match mkdirAll env dir w with
      | some err => some (some err, w)
      | none =>
        match env.writeFileError filepath (data.getD []) w with
        | some (err, files) => some (some err, { w with files := files })
        | none => some (none, { w with files := writeFile w.files filepath (data.getD []) })

/-- The pair returned by a backend function for a reply. -/
def BackendReply.result : BackendReply → Option Bytes × Option GoError
  | BackendReply.ok audioData => (some audioData, none)
  | BackendReply.failed audioData err => (audioData, some err)

/-- The function `generateAudioLocal` (lines 189-244), as far as the pipeline observes
it; `none` when it panics: after a `null` answer to the audio query the assignment
`audioQuery["speedScale"] = cfg.Speed` (line 216) writes to a nil map. -/
def generateAudioLocal (env : Env) (cfg : Config) (text : GoString) (w : World) :
    Option ((Option Bytes × Option GoError) × World) :=
  match env.localQuery cfg text w with
  | AudioQueryReply.failed err =>
    some ((none, some err), { w with log := w.log ++ [Event.localCall text] })
  | AudioQueryReply.null => none
  | AudioQueryReply.object =>
    some ((env.localSynthesis cfg text w).result,
      { w with log := w.log ++ [Event.localCall text] })

/-- The function `generateAudioCloud` (lines 246-279), as far as the pipeline observes
it. -/
def generateAudioCloud (env : Env) (cfg : Config) (text : GoString) (w : World) :
    Option ((Option Bytes × Option GoError) × World) :=
  some ((env.cloudBackend cfg text w).result,
    { w with log := w.log ++ [Event.cloudCall text] })

/-- The backend call of `generateAudio` (lines 290-294). -/
def callBackend (env : Env) (cfg : Config) (text : GoString) (w : World) :
    Option ((Option Bytes × Option GoError) × World) :=
  if cfg.Source = "local".toList then generateAudioLocal env cfg text w
  else generateAudioCloud env cfg text w

/-- What `generateAudio` does with the answer of the backend (lines 296-305): an error
is returned with nil bytes, a success is saved to the cache when caching is enabled
and returned, whatever `saveToCache` returns; `none` when `saveToCache` panics. -/
def finishGenerate (env : Env) (cfg : Config) (text : GoString) (cacheEnabled : Bool) :
    (Option Bytes × Option GoError) × World →
      Option ((Option Bytes × Option GoError) × World)
  | ((_, some err), w1) => some ((none, some err), w1)
  | ((audioData, none), w1) =>
    if cacheEnabled then
      match saveToCache env cfg text audioData cacheEnabled w1 with
      | none => none
      | some (_, w2) => some ((audioData, none), w2)
    else some ((audioData, none), w1)

/-- The function `generateAudio` (lines 281-306); `none` when it panics. -/
def generateAudio (env : Env) (cfg : Config) (text : GoString) (cacheEnabled : Bool)
    (w : World) : Option ((Option Bytes × Option GoError) × World) :=
  match checkCache env cfg text cacheEnabled w with
  | (some cached, none) => some ((some cached, none), w)
  | _ =>
    match callBackend env cfg text w with
    | none => none
    | some answer => finishGenerate env cfg text cacheEnabled answer

/-- The number of backend calls recorded in a log. -/
def backendCalls (log : List Event) : Nat :=
  (log.filter (fun e =>
    match e with
    | Event.localCall _ => true
    | Event.cloudCall _ => true
    | _ => false)).length

/-- The function `playAudio` on the log of the main goroutine: the error of the `play`
command and the log with its run appended. -/
def playAudio (env : Env) (audioData : Option Bytes) (format : GoString)
    (log : List Event) : Option GoError × List Event :=
  (env.sink (audioData.getD []) format log, log ++ [Event.play (audioData.getD []) format])

/-! ## `streamingTTS` (lines 340-446) -/

/-- The variable `format` of `streamingTTS`. -/
def audioFormat (cfg : Config) : GoString :=
  if cfg.Source = "cloud".toList then "mp3".toList else "wav".toList

/-- The loop `for i := 1; i < len(sentences); i++` of the generation goroutine (lines
386-397), at index `i` with the sentences from `sentences[i]` on; `sent` is what has
been sent on `audioChannel`. -/
def generationLoop (env : Env) (cfg : Config) (cacheEnabled : Bool) (format : GoString) :
    Int → List GoString → World → List AudioData → Option (List AudioData × World)
  | _, [], w, sent => some (sent, w)
  | i, sentence :: rest, w, sent =>
    match generateAudio env cfg sentence cacheEnabled
        { w with log := debugLog cfg (DebugMsg.generating (i + 1) sentence) w.log } with
    | none => none
    | some ((audioData, err), w1) =>
      generationLoop env cfg cacheEnabled format (i + 1) rest
        { w1 with log := debugLog cfg (DebugMsg.generated (i + 1) sentence) w1.log }
        (sent ++ [{ Index := i, Buffer := audioData, Format := format, Error := err }])

/-- The generation goroutine (lines 367-398): what it sends on `audioChannel` before
closing it, and the world it leaves; `none` when it panics.  The channel has room for
`len(sentences)` values, so no send blocks. -/
def generationStage (env : Env) (cfg : Config) (sentences : List GoString)
    (cacheEnabled : Bool) (w : World) : Option (List AudioData × World) :=
  match sentences with
  | [] => none
  | first :: rest =>
    match generateAudio env cfg first cacheEnabled
        { w with log := debugLog cfg (DebugMsg.generating 1 first) w.log } with
    | none => none
    | some ((audioData, err), w1) =>
      generationLoop env cfg cacheEnabled (audioFormat cfg) 1 rest w1
        [{ Index := 0, Buffer := audioData, Format := audioFormat cfg, Error := err }]

/-- The Go index expression `sentences[i]`, which panics (`none`) out of range. -/
def indexSentence (sentences : List GoString) (i : Int) : Option GoString :=
  if 0 ≤ i then sentences[i.toNat]? else none

/-- The body of the main playback loop (lines 425-442) for one received value, on the
log of the main goroutine; `none` when it panics. -/
def playbackBody (env : Env) (cfg : Config) (sentences : List GoString)
    (audio : AudioData) (log : List Event) : Option (List Event) :=
  match indexSentence sentences audio.Index with
  | none => none
  | some sentence =>
    let log1 := log ++ [Event.println sentence]
    match audio.Error with
    | some err => some (debugLog cfg (DebugMsg.generationError (audio.Index + 1) err) log1)
    | none =>
      let log2 :=
        match audio.Buffer with
        | some buffer =>
          match playAudio env (some buffer) audio.Format log1 with
          | (some err, l) => debugLog cfg (DebugMsg.playError (audio.Index + 1) err) l
          | (none, l) => l
        | none => log1
      some (if audio.Index < (sentences.length : Int) - 1
        then log2 ++ [Event.sleep cfg.SleepTime] else log2)

/-- The main playback loop `for audio := range playChannel` (lines 424-443) on the
values received until the channel is closed. -/
def playbackLoop (env : Env) (cfg : Config) (sentences : List GoString) :
    List AudioData → List Event → Option (List Event)
  | [], log => some log
  | audio :: rest, log =>
    match playbackBody env cfg sentences audio log with
    | none => none
    | some log1 => playbackLoop env cfg sentences rest log1

/-- How a call of `streamingTTS` ends: the error it returns, the world it leaves and
the log of the main goroutine. -/
structure RunResult where
  err : Option GoError
  world : World
  log : List Event
deriving DecidableEq

/-- The function `streamingTTS`; `none` when the process panics.  For several
sentences the three goroutines are composed through their channels. -/
def streamingTTS (env : Env) (cfg : Config) (text : GoString) (cacheEnabled : Bool)
    (w : World) : Option RunResult :=
  match splitSentences text with
  | [] => some { err := none, world := w, log := [] }
  | [sentence] =>
    match generateAudio env cfg sentence cacheEnabled w with
    | none => none
    | some ((_, some err), w1) =>
      some { err := some err, world := w1, log := [Event.println sentence] }
    | some ((audioData, none), w1) =>
      match playAudio env audioData (audioFormat cfg) [Event.println sentence] with
      | (perr, log) => some { err := perr, world := w1, log := log }
  | sentences =>
    match generationStage env cfg sentences cacheEnabled w with
    | none => none
    | some (audioChannel, w1) =>
      match reorderStage audioChannel with
      | none => none
      | some st =>
        match playbackLoop env cfg sentences st.playChannel [] with
        | none => none
        | some log => some { err := none, world := w1, log := log }

/-! ### Projections of a log -/

/-- The lines printed by `fmt.Println`, in order. -/
def printed (log : List Event) : List GoString :=
  log.filterMap (fun e =>
    match e with
    | Event.println line => some line
    | _ => none)

/-- The runs of the audio sink, in order, each with its bytes and format. -/
def played (log : List Event) : List (Bytes × GoString) :=
  log.filterMap (fun e =>
    match e with
    | Event.play audioData format => some (audioData, format)
    | _ => none)

/-- The runs of the audio sink and the pauses, in order. -/
def audible (log : List Event) : List Event :=
  log.filter (fun e =>
    match e with
    | Event.play _ _ => true
    | Event.sleep _ => true
    | _ => false)

/-- An event that is neither a printed line nor a pause. -/
def Event.isPlayOrDebug : Event → Bool
  | Event.play _ _ => true
  | Event.debug _ => true
  | _ => false

/-! ### A model of `filepath.Join` and sample collaborators -/

/-- The path elements kept by Go's `filepath.Clean`, given the elements between
slashes: empty and `.` elements are dropped, a `..` element removes the element before
it, is dropped at the root, and is kept at the start of a relative path. -/
def cleanElements (rooted : Bool) : List GoString → List GoString → List GoString
  | [], kept => kept.reverse
  | elem :: rest, kept =>
    if elem = [] ∨ elem = ".".toList then cleanElements rooted rest kept
    else if elem = "..".toList then
      match kept with
      | top :: below =>
        if top = "..".toList then cleanElements rooted rest (elem :: kept)
        else cleanElements rooted rest below
      | [] => if rooted then cleanElements rooted rest [] else cleanElements rooted rest [elem]
    else cleanElements rooted rest (elem :: kept)

/-- Go's `filepath.Clean` for Unix paths. -/
def filepathClean (path : GoString) : GoString :=
  if path = [] then ".".toList
  else
    let rooted := decide (path.head? = some '/')
    let cleaned := (if rooted then ['/'] else []) ++
      List.intercalate ['/'] (cleanElements rooted (path.splitOn '/') [])
    if cleaned = [] then ".".toList else cleaned

/-- Go's `filepath.Join` of two elements for Unix paths: empty elements are ignored and
the result is cleaned; it is empty when both elements are. -/
def unixJoin (a b : GoString) : GoString :=
  match [a, b].filter (fun e => decide (e ≠ [])) with
  | [] => []
  | elems => filepathClean (List.intercalate ['/'] elems)

/-- Collaborators for the examples: the true SHA-256 digests of the texts used, Unix
paths, a local backend that answers the audio query with an object and the synthesis
with three bytes, except for the text "World!", for which the synthesis fails, file
operations that succeed, and a sink that succeeds. -/
def sampleEnv : Env where
  sha256Hex := fun text =>
    if text = "Hello!".toList then
      "334d016f755cd6dc58c53a86e183882f8ec14f52fb05345887c8a5edd42c87b7".toList
    else if text = "World!".toList then
      "514b6bb7c846ecfb8d2d29ef0b5c79b63e6ae838f123da936fe827fda654276c".toList
    else "e3b0c44298fc1c149afbf4c8996fb92427ae41e4649b934ca495991b7852b855".toList
  filepathJoin := unixJoin
  localQuery := fun _ _ _ => AudioQueryReply.object
  localSynthesis := fun _ text _ =>
    if text = "World!".toList then BackendReply.failed none "failed to synthesize audio (HTTP 500)"
    else BackendReply.ok [82, 73, 70]
  cloudBackend := fun _ _ _ => BackendReply.failed none "failed to call cloud API"
  readFileError := fun _ _ => none
  mkdirAllError := fun _ _ => none
  writeFileError := fun _ _ _ => none
  sink := fun _ _ _ => none

/-- The configuration of `getConfig` with no environment variable set but `HOME=/root`. -/
def defaultConfig : Config where
  Source := "local".toList
  LocalURL := "http://localhost:10101".toList
  SpeakerID := "888753760".toList
  CloudURL := "https://api.aivis-project.com".toList
  APIKey := []
  ModelUUID := "a59cb814-0083-4369-8542-f51a29e72af7".toList
  Speed := 0x3FF0000000000000
  Pitch := 0
  Volume := 0x3FF0000000000000
  CacheDir := "/root/.cache/aivisay".toList
  SleepTime := 300000000
  Debug := false

/-- The default configuration with `AIVIS_CACHE_DIR=.` and `AIVISSPEECH_SPEAKER=.`. -/
def dotConfig : Config :=
  { defaultConfig with CacheDir := ".".toList, SpeakerID := ".".toList }

/-- The default configuration with `AIVIS_CACHE_DIR=/` and `AIVISSPEECH_SPEAKER=.`. -/
def rootConfig : Config :=
  { defaultConfig with CacheDir := "/".toList, SpeakerID := ".".toList }

/-- The sample collaborators with a local engine that answers every audio query with
status 200 and the JSON value `null`. -/
def nullQueryEnv : Env :=
  { sampleEnv with localQuery := fun _ _ _ => AudioQueryReply.null }

/-- The world before anything has happened, with an empty cache. -/
def World.empty : World :=
  { files := [], log := [] }

/-- The events of the main goroutine for one unit: the unit's sentence is printed;
then come only runs of the sink and debug lines, the sink being run exactly when the
result carries no error and has bytes, with these bytes and the result's format; and a
pause of `cfg.SleepTime` ends the segment exactly when the unit is not the last one
and its result carries no error. -/
def UnitSegment (cfg : Config) (sentences : List GoString) (audio : AudioData)
    (segment : List Event) : Prop :=
  ∃ sentence middle,
    indexSentence sentences audio.Index = some sentence ∧
    segment = Event.println sentence :: middle ++
      (if audio.Index < (sentences.length : Int) - 1 ∧ audio.Error = none
        then [Event.sleep cfg.SleepTime] else []) ∧
    (∀ e ∈ middle, e.isPlayOrDebug = true) ∧
    played middle =
      (if audio.Error = none then (audio.Buffer.map (fun b => (b, audio.Format))).toList
        else [])

/-- The durations of the pauses, in order. -/
def pauses (log : List Event) : List Int :=
  log.filterMap (fun e =>
    match e with
    | Event.sleep d => some d
    | _ => none)

/-- A successful result of index `i`, as the generation goroutine sends it. -/
def okResult (i : Int) : AudioData :=
  { Index := i, Buffer := some [82, 73, 70], Format := "wav".toList, Error := none }

/-- A failed result of index `i`, as the generation goroutine sends it. -/
def failedResult (i : Int) : AudioData :=
  { Index := i, Buffer := none, Format := "wav".toList,
    Error := some "failed to synthesize audio (HTTP 500)" }

/-- The world after `generateAudio` has fetched "Hello!" from the sample backend with
the default configuration and saved it to the cache. -/
def World.afterHello : World :=
  { files := [(getCacheFilename sampleEnv defaultConfig "Hello!".toList, [82, 73, 70])],
    log := [Event.localCall "Hello!".toList] }

/-! ## Properties of the reorder goroutine -/

theorem mapGet_mem {m : AudioMap} {k : Int} {v : AudioData} (h : mapGet m k = some v) :
    (k, v) ∈ m := by
  induction m with
  | nil => simp [mapGet] at h
  | cons e rest ih =>
    obtain ⟨k', v'⟩ := e
    simp only [mapGet] at h
    split at h
    · rename_i hk
      cases h
      simp [hk]
    · exact List.mem_cons_of_mem _ (ih h)

theorem mapGet_eq_none {m : AudioMap} {k : Int} :
    mapGet m k = none ↔ ∀ e ∈ m, e.1 ≠ k := by
  induction m with
  | nil => simp [mapGet]
  | cons e rest ih =>
    obtain ⟨k', v'⟩ := e
    simp only [mapGet]
    split
    · rename_i hk
      simp [hk]
    · rename_i hk
      simp [ih, hk]

theorem mem_mapDelete {m : AudioMap} {k : Int} {e : Int × AudioData} :
    e ∈ mapDelete m k ↔ e ∈ m ∧ e.1 ≠ k := by
  simp [mapDelete, List.mem_filter]

theorem mem_mapSet {m : AudioMap} {k : Int} {v : AudioData} {e : Int × AudioData} :
    e ∈ mapSet m k v ↔ e = (k, v) ∨ (e ∈ m ∧ e.1 ≠ k) := by
  simp [mapSet, mem_mapDelete]

theorem mapDelete_length_lt {m : AudioMap} {k : Int} {v : AudioData}
    (h : mapGet m k = some v) : (mapDelete m k).length < m.length := by
  have hmem := mapGet_mem h
  unfold mapDelete
  apply List.length_filter_lt_length_iff_exists.mpr
  exact ⟨(k, v), hmem, by simp⟩

theorem mapDelete_of_not_mem {m : AudioMap} {k : Int} (h : ∀ e ∈ m, e.1 ≠ k) :
    mapDelete m k = m := by
  unfold mapDelete
  apply List.filter_eq_self.mpr
  intro e he
  simpa using h e he

/-- With enough fuel the inner loop reaches its `break`. -/
theorem releaseLoop_isSome (fuel : Nat) (st : ReorderState)
    (h : st.audioBuffer.length < fuel) : ∃ st', releaseLoop fuel st = some st' := by
  induction fuel generalizing st with
  | zero => omega
  | succ n ih =>
    unfold releaseLoop
    cases hg : mapGet st.audioBuffer st.nextPlayIndex with
    | none => exact ⟨st, rfl⟩
    | some a =>
      apply ih
      have := mapDelete_length_lt hg
      simp only [ReorderState.advance, ReorderState.deleteNext, ReorderState.send]
      omega

/-- One iteration of the receive loop always completes. -/
theorem reorderStep_isSome (st : ReorderState) (audio : AudioData) :
    ∃ st', reorderStep st audio = some st' :=
  releaseLoop_isSome _ _ (Nat.lt_succ_self _)

/-- The reorder goroutine completes on every list of arrivals. -/
theorem reorderFrom_isSome (st : ReorderState) (arrivals : List AudioData) :
    ∃ st', reorderFrom st arrivals = some st' := by
  induction arrivals generalizing st with
  | nil => exact ⟨st, rfl⟩
  | cons a rest ih =>
    obtain ⟨s1, h1⟩ := reorderStep_isSome st a
    simp only [reorderFrom, h1]
    exact ih s1

theorem reorderFrom_append (st : ReorderState) (xs ys : List AudioData) :
    reorderFrom st (xs ++ ys) = (reorderFrom st xs).bind (fun s => reorderFrom s ys) := by
  induction xs generalizing st with
  | nil => simp [reorderFrom]
  | cons a rest ih =>
    simp only [List.cons_append, reorderFrom]
    cases reorderStep st a with
    | none => simp
    | some s1 => simpa using ih s1

/-- An invariant preserved by the inner loop is established by it. -/
theorem releaseLoop_induction (P : ReorderState → Prop)
    (hstep : ∀ st a, P st → mapGet st.audioBuffer st.nextPlayIndex = some a →
      P ((st.send a).deleteNext).advance)
    (fuel : Nat) (st st' : ReorderState) (h0 : P st) (h : releaseLoop fuel st = some st') :
    P st' ∧ mapGet st'.audioBuffer st'.nextPlayIndex = none := by
  induction fuel generalizing st with
  | zero => simp [releaseLoop] at h
  | succ n ih =>
    unfold releaseLoop at h
    cases hg : mapGet st.audioBuffer st.nextPlayIndex with
    | none =>
      rw [hg] at h
      cases h
      exact ⟨h0, hg⟩
    | some a =>
      rw [hg] at h
      exact ih _ (hstep st a h0 hg) h

theorem ordered_init : ReorderState.init.Ordered :=
  ⟨by simp [ReorderState.init], by simp [ReorderState.init], by simp [ReorderState.init]⟩

theorem ordered_insert {st : ReorderState} (h : st.Ordered) (audio : AudioData) :
    (st.insert audio).Ordered := by
  refine ⟨?_, h.sent, h.cursor⟩
  intro e he
  rcases mem_mapSet.mp he with rfl | ⟨hm, _⟩
  · rfl
  · exact h.keyed e hm

theorem ordered_release {st : ReorderState} (h : st.Ordered) {a : AudioData}
    (hg : mapGet st.audioBuffer st.nextPlayIndex = some a) :
    (((st.send a).deleteNext).advance).Ordered := by
  have hidx : a.Index = st.playChannel.length := by
    have := h.keyed _ (mapGet_mem hg)
    simpa [h.cursor] using this
  refine ⟨?_, ?_, ?_⟩
  · intro e he
    exact h.keyed e (mem_mapDelete.mp he).1
  · simp [ReorderState.advance, ReorderState.deleteNext, ReorderState.send, List.range_succ,
      h.sent, hidx]
  · simp [ReorderState.advance, ReorderState.deleteNext, ReorderState.send, h.cursor]

theorem ordered_step {st st' : ReorderState} {audio : AudioData} (h : st.Ordered)
    (hs : reorderStep st audio = some st') : st'.Ordered :=
  (releaseLoop_induction ReorderState.Ordered (fun _ _ hP hg => ordered_release hP hg)
    _ _ _ (ordered_insert h audio) hs).1

theorem ordered_reorderFrom {st st' : ReorderState} (arrivals : List AudioData)
    (h : st.Ordered) (hs : reorderFrom st arrivals = some st') : st'.Ordered := by
  induction arrivals generalizing st with
  | nil =>
    simp only [reorderFrom] at hs
    cases hs
    exact h
  | cons a rest ih =>
    simp only [reorderFrom] at hs
    cases h1 : reorderStep st a with
    | none => simp [h1] at hs
    | some s1 =>
      rw [h1] at hs
      exact ih (ordered_step h h1) hs

theorem playChannel_step {st st' : ReorderState} {audio : AudioData}
    (hs : reorderStep st audio = some st') : st.playChannel <+: st'.playChannel := by
  refine (releaseLoop_induction (fun s => st.playChannel <+: s.playChannel) ?_
    _ _ _ ?_ hs).1
  · intro s a hP _
    exact hP.trans (List.prefix_append _ _)
  · exact List.prefix_refl _

theorem playChannel_reorderFrom {st st' : ReorderState} (arrivals : List AudioData)
    (hs : reorderFrom st arrivals = some st') : st.playChannel <+: st'.playChannel := by
  induction arrivals generalizing st with
  | nil =>
    simp only [reorderFrom] at hs
    cases hs
    exact List.prefix_refl _
  | cons a rest ih =>
    simp only [reorderFrom] at hs
    cases h1 : reorderStep st a with
    | none => simp [h1] at hs
    | some s1 =>
      rw [h1] at hs
      exact (playChannel_step h1).trans (ih hs)

/-- **C2.** Whatever the arrivals (any indices, any order, gaps and repeats allowed),
after any prefix of them the reorder goroutine has sent values whose indices are
exactly `0, 1, ..., m-1` for some `m`, and what it has sent by then is an initial
segment of what it sends in the whole run: no index is released out of order,
skipped or released twice. -/
theorem reorder_releases_in_index_order (arrivals p : List AudioData)
    (hp : p <+: arrivals) :
    ∃ st stAll m, reorderStage p = some st ∧ reorderStage arrivals = some stAll ∧
      st.playChannel.map (fun a => a.Index) = (List.range m).map Int.ofNat ∧
      st.playChannel <+: stAll.playChannel := by
  obtain ⟨rest, rfl⟩ := hp
  obtain ⟨st, hst⟩ := reorderFrom_isSome ReorderState.init p
  obtain ⟨stAll, hall⟩ := reorderFrom_isSome st rest
  refine ⟨st, stAll, st.playChannel.length, hst, ?_, ?_, ?_⟩
  · simp [reorderStage, reorderFrom_append, hst, hall]
  · exact (ordered_reorderFrom p ordered_init hst).sent
  · exact playChannel_reorderFrom rest hall

/-- C2 on arrivals with indices 2, 0, 0, -1, 1, after the first three of them. -/
theorem reorder_releases_in_index_order_witness :
    [okResult 2, failedResult 0, okResult 0] <+:
      [okResult 2, failedResult 0, okResult 0, okResult (-1), okResult 1] ∧
    ∃ st stAll m,
      reorderStage [okResult 2, failedResult 0, okResult 0] = some st ∧
      reorderStage [okResult 2, failedResult 0, okResult 0, okResult (-1), okResult 1] =
        some stAll ∧
      st.playChannel.map (fun a => a.Index) = (List.range m).map Int.ofNat ∧
      st.playChannel <+: stAll.playChannel :=
  ⟨⟨[okResult (-1), okResult 1], rfl⟩,
    reorder_releases_in_index_order _ _ ⟨[okResult (-1), okResult 1], rfl⟩⟩

theorem mapDelete_perm {m : AudioMap} {k : Int} {v : AudioData}
    (hnd : (m.map Prod.fst).Nodup) (hg : mapGet m k = some v) :
    m.Perm ((k, v) :: mapDelete m k) := by
  induction m with
  | nil => simp [mapGet] at hg
  | cons e rest ih =>
    obtain ⟨k', v'⟩ := e
    simp only [List.map_cons, List.nodup_cons] at hnd
    simp only [mapGet] at hg
    split at hg
    · rename_i hk
      cases hg
      subst hk
      have hrest : mapDelete rest k' = rest := by
        apply mapDelete_of_not_mem
        intro e he hek
        exact hnd.1 (hek ▸ List.mem_map_of_mem Prod.fst he)
      have : mapDelete ((k', v) :: rest) k' = mapDelete rest k' := by
        simp [mapDelete]
      rw [this, hrest]
    · rename_i hk
      have h1 := ih hnd.2 hg
      have : mapDelete ((k', v') :: rest) k = (k', v') :: mapDelete rest k := by
        simp [mapDelete, hk]
      rw [this]
      exact (List.Perm.cons _ h1).trans (List.Perm.swap _ _ _)

theorem tracked_init : ReorderState.init.Tracked [] :=
  ⟨ordered_init, by simp [ReorderState.init], by simp [ReorderState.init]⟩

theorem tracked_keys_nodup {seen : List AudioData} {st : ReorderState}
    (h : st.Tracked seen) (hnd : (seen.map (fun a => a.Index)).Nodup) :
    (st.audioBuffer.map Prod.fst).Nodup := by
  have h1 : ((st.playChannel ++ st.audioBuffer.map Prod.snd).map (fun a => a.Index)).Nodup :=
    ((h.conserved.map _).nodup_iff).mpr hnd
  rw [List.map_append, List.nodup_append] at h1
  have h2 : st.audioBuffer.map Prod.fst =
      (st.audioBuffer.map Prod.snd).map (fun a => a.Index) := by
    rw [List.map_map]
    apply List.map_congr_left
    intro e he
    exact (h.ordered.keyed e he).symm
  rw [h2]
  exact h1.2.1

theorem tracked_insert {seen : List AudioData} {st : ReorderState} (h : st.Tracked seen)
    (audio : AudioData) (hnew : audio.Index ∉ seen.map (fun a => a.Index))
    (hpos : 0 ≤ audio.Index) : (st.insert audio).Tracked (seen ++ [audio]) := by
  have hfresh : ∀ e ∈ st.audioBuffer, e.1 ≠ audio.Index := by
    intro e he hk
    apply hnew
    have hmem : e.2 ∈ seen :=
      h.conserved.subset (List.mem_append_right _ (List.mem_map_of_mem Prod.snd he))
    have := List.mem_map_of_mem (fun a => a.Index) hmem
    simpa [h.ordered.keyed e he, hk] using this
  have hset : (st.insert audio).audioBuffer = (audio.Index, audio) :: st.audioBuffer := by
    simp [ReorderState.insert, mapSet, mapDelete_of_not_mem hfresh]
  refine ⟨ordered_insert h.ordered audio, ?_, ?_⟩
  · rw [hset]
    have : (st.insert audio).playChannel = st.playChannel := rfl
    rw [this, List.map_cons]
    exact List.perm_middle.trans ((List.Perm.cons _ h.conserved).trans
      (List.perm_append_singleton _ _).symm)
  · intro e he
    rw [hset] at he
    have hnext : (st.insert audio).nextPlayIndex = st.nextPlayIndex := rfl
    rw [hnext]
    rcases List.mem_cons.mp he with rfl | hm
    · by_contra hlt
      push_neg at hlt
      apply hnew
      have hc := h.ordered.cursor
      have hin : audio.Index ∈ st.playChannel.map (fun a => a.Index) := by
        rw [h.ordered.sent, List.mem_map]
        refine ⟨audio.Index.toNat, ?_, ?_⟩
        · rw [List.mem_range]
          simp only at hlt
          omega
        · exact Int.toNat_of_nonneg hpos
      obtain ⟨s, hs, hsi⟩ := List.mem_map.mp hin
      exact List.mem_map.mpr ⟨s, h.conserved.subset (List.mem_append_left _ hs), hsi⟩
    · exact h.lower e hm

theorem tracked_release {seen : List AudioData} {st : ReorderState} (h : st.Tracked seen)
    (hnd : (seen.map (fun a => a.Index)).Nodup) {a : AudioData}
    (hg : mapGet st.audioBuffer st.nextPlayIndex = some a) :
    (((st.send a).deleteNext).advance).Tracked seen := by
  refine ⟨ordered_release h.ordered hg, ?_, ?_⟩
  · have hp := mapDelete_perm (tracked_keys_nodup h hnd) hg
    have hp2 := hp.map Prod.snd
    simp only [List.map_cons] at hp2
    simp only [ReorderState.advance, ReorderState.deleteNext, ReorderState.send,
      List.append_assoc, List.singleton_append]
    exact (List.Perm.append_left _ hp2.symm).trans h.conserved
  · intro e he
    have he2 := mem_mapDelete.mp he
    have := h.lower e he2.1
    have hne := he2.2
    simp only [ReorderState.advance, ReorderState.deleteNext, ReorderState.send] at hne ⊢
    omega

theorem tracked_step {seen : List AudioData} {st st' : ReorderState} {audio : AudioData}
    (h : st.Tracked seen) (hnd : ((seen ++ [audio]).map (fun a => a.Index)).Nodup)
    (hpos : 0 ≤ audio.Index) (hs : reorderStep st audio = some st') :
    st'.Tracked (seen ++ [audio]) ∧ mapGet st'.audioBuffer st'.nextPlayIndex = none := by
  have hnew : audio.Index ∉ seen.map (fun a => a.Index) := by
    rw [List.map_append, List.nodup_append] at hnd
    intro hin
    exact hnd.2.2 hin (by simp)
  exact releaseLoop_induction (ReorderState.Tracked (seen ++ [audio]))
    (fun _ _ hP hg => tracked_release hP hnd hg) _ _ _ (tracked_insert h audio hnew hpos) hs

theorem tracked_reorderFrom {seen : List AudioData} {st st' : ReorderState}
    (arrivals : List AudioData) (h : st.Tracked seen)
    (hnd : ((seen ++ arrivals).map (fun a => a.Index)).Nodup)
    (hpos : ∀ a ∈ arrivals, 0 ≤ a.Index) (hs : reorderFrom st arrivals = some st') :
    st'.Tracked (seen ++ arrivals) := by
  induction arrivals generalizing st seen with
  | nil =>
    simp only [reorderFrom] at hs
    cases hs
    simpa using h
  | cons a rest ih =>
    simp only [reorderFrom] at hs
    cases h1 : reorderStep st a with
    | none => simp [h1] at hs
    | some s1 =>
      rw [h1] at hs
      have hnd1 : ((seen ++ [a]).map (fun a => a.Index)).Nodup := by
        have : (seen ++ [a]) <+: (seen ++ a :: rest) := ⟨rest, by simp⟩
        exact hnd.sublist (this.sublist.map _)
      have ht := (tracked_step h hnd1 (hpos a (List.mem_cons_self _ _)) h1).1
      have := ih ht (by simpa using hnd) (fun x hx => hpos x (List.mem_cons_of_mem _ hx)) hs
      simpa using this

theorem reorderFrom_gap {st st' : ReorderState} (arrivals : List AudioData)
    (h0 : mapGet st.audioBuffer st.nextPlayIndex = none)
    (hs : reorderFrom st arrivals = some st') :
    mapGet st'.audioBuffer st'.nextPlayIndex = none := by
  induction arrivals generalizing st with
  | nil =>
    simp only [reorderFrom] at hs
    cases hs
    exact h0
  | cons a rest ih =>
    simp only [reorderFrom] at hs
    cases h1 : reorderStep st a with
    | none => simp [h1] at hs
    | some s1 =>
      rw [h1] at hs
      exact ih (releaseLoop_induction (fun _ => True) (fun _ _ _ _ => trivial)
        _ _ _ trivial h1).2 hs

theorem releaseTrace_lower {seen : List AudioData} (hnd : (seen.map (fun a => a.Index)).Nodup)
    (fuel : Nat) (st : ReorderState) (h : st.Tracked seen) :
    ∀ s ∈ releaseTrace fuel st, ∀ e ∈ s.audioBuffer, s.nextPlayIndex ≤ e.1 := by
  induction fuel generalizing st with
  | zero =>
    intro s hs
    simp only [releaseTrace, List.mem_singleton] at hs
    subst hs
    exact h.lower
  | succ n ih =>
    intro s hs
    unfold releaseTrace at hs
    cases hg : mapGet st.audioBuffer st.nextPlayIndex with
    | none =>
      rw [hg] at hs
      simp only [List.mem_singleton] at hs
      subst hs
      exact h.lower
    | some a =>
      rw [hg] at hs
      simp only [List.mem_cons] at hs
      rcases hs with rfl | rfl | rfl | hs
      · exact h.lower
      · exact h.lower
      · intro e he
        exact h.lower e (mem_mapDelete.mp he).1
      · exact ih _ (tracked_release h hnd hg) s hs

theorem reorderTraceFrom_lower {seen : List AudioData} {st : ReorderState}
    (arrivals : List AudioData) (h : st.Tracked seen)
    (hnd : ((seen ++ arrivals).map (fun a => a.Index)).Nodup)
    (hpos : ∀ a ∈ arrivals, 0 ≤ a.Index) :
    ∀ s ∈ reorderTraceFrom st arrivals, ∀ e ∈ s.audioBuffer, s.nextPlayIndex ≤ e.1 := by
  induction arrivals generalizing st seen with
  | nil =>
    intro s hs
    simp only [reorderTraceFrom, List.mem_singleton] at hs
    subst hs
    exact h.lower
  | cons a rest ih =>
    intro s hs
    have hnd1 : ((seen ++ [a]).map (fun a => a.Index)).Nodup := by
      have : (seen ++ [a]) <+: (seen ++ a :: rest) := ⟨rest, by simp⟩
      exact hnd.sublist (this.sublist.map _)
    have hnew : a.Index ∉ seen.map (fun a => a.Index) := by
      rw [List.map_append, List.nodup_append] at hnd1
      intro hin
      exact hnd1.2.2 hin (by simp)
    have hpa := hpos a (List.mem_cons_self _ _)
    simp only [reorderTraceFrom, List.mem_cons, List.mem_append] at hs
    rcases hs with (rfl | hs) | hs
    · exact h.lower
    · exact releaseTrace_lower hnd1 _ _ (tracked_insert h a hnew hpa) s hs
    · cases h1 : reorderStep st a with
      | none => simp [h1] at hs
      | some s1 =>
        rw [h1] at hs
        exact ih (tracked_step h hnd1 hpa h1).1 (by simpa using hnd)
          (fun x hx => hpos x (List.mem_cons_of_mem _ hx)) s hs

theorem mem_releaseTrace_self (fuel : Nat) (st : ReorderState) :
    st ∈ releaseTrace fuel st := by
  cases fuel with
  | zero => simp [releaseTrace]
  | succ n =>
    unfold releaseTrace
    cases mapGet st.audioBuffer st.nextPlayIndex <;> simp

/-- The state the inner loop ends in is the last of the states it passes through. -/
theorem releaseLoop_mem_trace (fuel : Nat) (st st' : ReorderState)
    (h : releaseLoop fuel st = some st') : st' ∈ releaseTrace fuel st := by
  induction fuel generalizing st with
  | zero => simp [releaseLoop] at h
  | succ n ih =>
    unfold releaseLoop at h
    unfold releaseTrace
    cases hg : mapGet st.audioBuffer st.nextPlayIndex with
    | none =>
      rw [hg] at h
      cases h
      simp
    | some a =>
      rw [hg] at h
      simp only [List.mem_cons]
      exact Or.inr (Or.inr (Or.inr (ih _ h)))

theorem mem_reorderTraceFrom_self (st : ReorderState) (arrivals : List AudioData) :
    st ∈ reorderTraceFrom st arrivals := by
  cases arrivals <;> simp [reorderTraceFrom]

theorem reorderFrom_mem_trace {st st' : ReorderState} (p rest : List AudioData)
    (hs : reorderFrom st p = some st') : st' ∈ reorderTraceFrom st (p ++ rest) := by
  induction p generalizing st with
  | nil =>
    simp only [reorderFrom] at hs
    cases hs
    exact mem_reorderTraceFrom_self _ _
  | cons a tl ih =>
    simp only [reorderFrom] at hs
    cases h1 : reorderStep st a with
    | none => simp [h1] at hs
    | some s1 =>
      rw [h1] at hs
      simp only [List.cons_append, reorderTraceFrom, h1, List.mem_cons, List.mem_append]
      exact Or.inr (Or.inr (ih hs))

/-- **C10.** When the arrivals have pairwise distinct, non-negative indices, every key
held in `audioBuffer` is at least `nextPlayIndex` in every state the reorder goroutine
passes through (statement by statement), and once an arrival has been fully processed
`nextPlayIndex` is not a key of `audioBuffer`. -/
theorem reorder_buffer_keys_not_below_cursor (arrivals : List AudioData)
    (hdistinct : (arrivals.map (fun a => a.Index)).Nodup)
    (hnonneg : ∀ a ∈ arrivals, 0 ≤ a.Index) :
    (∀ st ∈ reorderTrace arrivals, ∀ e ∈ st.audioBuffer, st.nextPlayIndex ≤ e.1) ∧
    (∀ p, p <+: arrivals → ∃ st, reorderStage p = some st ∧ st ∈ reorderTrace arrivals ∧
      st.nextPlayIndex ∉ st.audioBuffer.map Prod.fst) := by
  constructor
  · exact reorderTraceFrom_lower arrivals tracked_init (by simpa using hdistinct) hnonneg
  · rintro p ⟨rest, rfl⟩
    obtain ⟨st, hst⟩ := reorderFrom_isSome ReorderState.init p
    refine ⟨st, hst, reorderFrom_mem_trace p rest hst, ?_⟩
    have hgap := reorderFrom_gap p (by simp [ReorderState.init, mapGet]) hst
    intro hmem
    obtain ⟨e, he, hek⟩ := List.mem_map.mp hmem
    exact mapGet_eq_none.mp hgap e he hek

/-- C10 on arrivals with indices 3, 0, 1. -/
theorem reorder_buffer_keys_not_below_cursor_witness :
    ([okResult 3, failedResult 0, okResult 1].map (fun a => a.Index)).Nodup ∧
    (∀ a ∈ [okResult 3, failedResult 0, okResult 1], 0 ≤ a.Index) ∧
    (∀ st ∈ reorderTrace [okResult 3, failedResult 0, okResult 1],
      ∀ e ∈ st.audioBuffer, st.nextPlayIndex ≤ e.1) ∧
    (∀ p, p <+: [okResult 3, failedResult 0, okResult 1] →
      ∃ st, reorderStage p = some st ∧
        st ∈ reorderTrace [okResult 3, failedResult 0, okResult 1] ∧
        st.nextPlayIndex ∉ st.audioBuffer.map Prod.fst) :=
  ⟨by decide, by decide,
    reorder_buffer_keys_not_below_cursor [okResult 3, failedResult 0, okResult 1]
      (by decide) (by decide)⟩

/-- When the indices of the arrivals are a permutation of `0, ..., n-1`, the reorder
goroutine ends with an empty buffer, having sent `n` values. -/
theorem reorderStage_drains (n : Nat) (arrivals : List AudioData)
    (hperm : (arrivals.map (fun a => a.Index)).Perm ((List.range n).map Int.ofNat)) :
    ∃ st, reorderStage arrivals = some st ∧ st.Tracked arrivals ∧ st.audioBuffer = [] ∧
      st.playChannel.length = n := by
  have hnd : (arrivals.map (fun a => a.Index)).Nodup :=
    (hperm.nodup_iff).mpr ((List.nodup_range n).map Int.ofNat_injective)
  have hidx : ∀ a ∈ arrivals, 0 ≤ a.Index ∧ a.Index < n := by
    intro a ha
    have := hperm.subset (List.mem_map_of_mem (fun a => a.Index) ha)
    obtain ⟨i, hi, hia⟩ := List.mem_map.mp this
    rw [List.mem_range] at hi
    have hia' : (i : Int) = a.Index := hia
    omega
  obtain ⟨st, hst⟩ := reorderFrom_isSome ReorderState.init arrivals
  have ht : st.Tracked arrivals := by
    simpa using tracked_reorderFrom arrivals tracked_init (by simpa using hnd)
      (fun a ha => (hidx a ha).1) hst
  have hgap := reorderFrom_gap arrivals (by simp [ReorderState.init, mapGet]) hst
  have hsentlt : ∀ a ∈ st.playChannel, a.Index < st.nextPlayIndex := by
    intro a ha
    have := List.mem_map_of_mem (fun a => a.Index) ha
    rw [ht.ordered.sent] at this
    obtain ⟨i, hi, hia⟩ := List.mem_map.mp this
    rw [List.mem_range] at hi
    have hc := ht.ordered.cursor
    have hia' : (i : Int) = a.Index := hia
    omega
  have hempty : st.audioBuffer = [] := by
    apply List.eq_nil_iff_forall_not_mem.mpr
    intro e he
    have hlow := ht.lower e he
    have hne := mapGet_eq_none.mp hgap e he
    have hmem : e.2 ∈ arrivals :=
      ht.conserved.subset (List.mem_append_right _ (List.mem_map_of_mem Prod.snd he))
    have hlt := (hidx _ hmem).2
    rw [ht.ordered.keyed e he] at hlt
    have hc := ht.ordered.cursor
    have hin : st.nextPlayIndex ∈ arrivals.map (fun a => a.Index) := by
      apply hperm.symm.subset
      rw [List.mem_map]
      exact ⟨st.playChannel.length, by rw [List.mem_range]; omega, hc.symm⟩
    obtain ⟨a, ha, hai⟩ := List.mem_map.mp hin
    rcases List.mem_append.mp (ht.conserved.symm.subset ha) with hs | hb
    · have := hsentlt a hs
      have hai' : a.Index = st.nextPlayIndex := hai
      omega
    · obtain ⟨e', he', rfl⟩ := List.mem_map.mp hb
      have := mapGet_eq_none.mp hgap e' he'
      exact this ((ht.ordered.keyed e' he').symm.trans hai)
  have hp : st.playChannel.Perm arrivals := by
    simpa [hempty] using ht.conserved
  have hlen : st.playChannel.length = n := by
    have := hperm.length_eq
    simp only [List.length_map, List.length_range] at this
    rw [hp.length_eq, this]
  exact ⟨st, hst, ht, hempty, hlen⟩

/-- **C1.** When the arrivals are `n` results whose indices are a permutation of
`0, ..., n-1`, the reorder goroutine sends exactly the arrivals, with indices
`0, 1, ..., n-1` in that order, the value at position `i` being the arrival of index
`i`, and `audioBuffer` is empty when `audioChannel` is exhausted. -/
theorem reorder_permutation_in_order (n : Nat) (arrivals : List AudioData)
    (hperm : (arrivals.map (fun a => a.Index)).Perm ((List.range n).map Int.ofNat)) :
    ∃ st, reorderStage arrivals = some st ∧
      st.playChannel.map (fun a => a.Index) = (List.range n).map Int.ofNat ∧
      st.playChannel.Perm arrivals ∧
      (∀ a ∈ arrivals, st.playChannel[a.Index.toNat]? = some a) ∧
      st.audioBuffer = [] ∧ st.nextPlayIndex = n := by
  obtain ⟨st, hst, ht, hempty, hlen⟩ := reorderStage_drains n arrivals hperm
  have hp : st.playChannel.Perm arrivals := by
    simpa [hempty] using ht.conserved
  refine ⟨st, hst, ?_, hp, ?_, hempty, ?_⟩
  · rw [ht.ordered.sent, hlen]
  · intro a ha
    obtain ⟨i, hi, hget⟩ := List.getElem_of_mem (hp.symm.subset ha)
    have h1 : (st.playChannel.map (fun a => a.Index))[i]? = some a.Index := by
      simp [List.getElem?_map, List.getElem?_eq_getElem hi, hget]
    rw [ht.ordered.sent] at h1
    simp [List.getElem?_map, List.getElem?_range hi] at h1
    have h2 : a.Index.toNat = i := by omega
    rw [h2, List.getElem?_eq_getElem hi, hget]
  · rw [ht.ordered.cursor, hlen]

/-- C1 on three results arriving in the order 2, 0, 1. -/
theorem reorder_permutation_in_order_witness :
    ([okResult 2, failedResult 0, okResult 1].map (fun a => a.Index)).Perm
      ((List.range 3).map Int.ofNat) ∧
    ∃ st, reorderStage [okResult 2, failedResult 0, okResult 1] = some st ∧
      st.playChannel.map (fun a => a.Index) = (List.range 3).map Int.ofNat ∧
      st.playChannel.Perm [okResult 2, failedResult 0, okResult 1] ∧
      (∀ a ∈ [okResult 2, failedResult 0, okResult 1],
        st.playChannel[a.Index.toNat]? = some a) ∧
      st.audioBuffer = [] ∧ st.nextPlayIndex = (3 : Nat) :=
  ⟨by decide, reorder_permutation_in_order 3 _ (by decide)⟩

/-! ## Properties of `splitSentences` -/

theorem slice_prefix (pre rest : GoString) (beg : Nat) :
    slice (pre ++ rest) beg pre.length = pre.drop beg := by
  simp [slice]

theorem slice_to_end (s : GoString) (beg : Nat) : slice s beg s.length = s.drop beg := by
  simp [slice]

theorem slice_one (pre : GoString) (c : Char) (cs : GoString) :
    slice (pre ++ c :: cs) pre.length (pre.length + 1) = [c] := by
  simp [slice, List.take_append_eq_append_take, List.drop_append_eq_append_drop]

theorem modifyHead_modifyHead {α : Type} (f g : α → α) (l : List α) :
    List.modifyHead f (List.modifyHead g l) = List.modifyHead (f ∘ g) l := by
  cases l <;> rfl

/-- The result of Go's `Regexp.Split` from the state its loop ends in. -/
theorem splitLoop_spec (s : GoString) (rest pre : GoString) (beg stop : Nat)
    (acc : List GoString) (hs : s = pre ++ rest) (hbeg : beg ≤ pre.length)
    (hstop : stop ≠ s.length) :
    (if (splitLoop s (findAllIndexFrom pre.length rest) beg stop acc).2.2 ≠ s.length then
        (splitLoop s (findAllIndexFrom pre.length rest) beg stop acc).1 ++
          [slice s (splitLoop s (findAllIndexFrom pre.length rest) beg stop acc).2.1 s.length]
      else (splitLoop s (findAllIndexFrom pre.length rest) beg stop acc).1)
      = acc ++ List.modifyHead (fun h => pre.drop beg ++ h) (rest.splitOnP isTerminator) := by
  induction rest generalizing pre beg stop acc with
  | nil =>
    subst hs
    simp only [findAllIndexFrom, splitLoop, List.splitOnP_nil, List.modifyHead]
    rw [if_pos hstop, slice_to_end]
    simp
  | cons c cs ih =>
    have hs' : s = (pre ++ [c]) ++ cs := by simp [hs]
    have hlen : (pre ++ [c]).length = pre.length + 1 := by simp
    rw [List.splitOnP_cons]
    by_cases hc : isTerminator c = true
    · simp only [findAllIndexFrom, hc, if_true, splitLoop]
      have h1 := ih (pre ++ [c]) (pre.length + 1) pre.length
        (acc ++ [slice s beg pre.length]) hs' (by simp) (by rw [hs]; simp)
      rw [hlen] at h1
      rw [if_pos (Nat.succ_ne_zero _)]
      refine h1.trans ?_
      have h2 : slice s beg pre.length = pre.drop beg := by
        rw [hs]; exact slice_prefix _ _ _
      have h3 : (pre ++ [c]).drop (pre.length + 1) = [] := by simp
      rw [h2, h3]
      have h4 : List.modifyHead (fun h => ([] : GoString) ++ h)
          (List.splitOnP isTerminator cs) = List.splitOnP isTerminator cs := by
        cases List.splitOnP isTerminator cs <;> rfl
      rw [h4]
      simp [List.modifyHead]
    · simp only [findAllIndexFrom, hc, if_false, Bool.false_eq_true]
      have h1 := ih (pre ++ [c]) beg stop acc hs' (by simp; omega) hstop
      rw [hlen] at h1
      refine h1.trans ?_
      rw [modifyHead_modifyHead]
      have h5 : (pre ++ [c]).drop beg = pre.drop beg ++ [c] := by
        rw [List.drop_append_of_le_length hbeg]
      rw [h5]
      congr 2
      funext h
      simp

/-- Go's `re.Split(text, -1)` returns the fragments of the text. -/
theorem reSplit_eq_fragments (s : GoString) : reSplit s = fragments s := by
  unfold reSplit fragments
  by_cases h0 : s.length = 0
  · have : s = [] := List.length_eq_zero.mp h0
    subst this
    simp
  · rw [if_neg h0]
    have h := splitLoop_spec s s [] 0 0 [] (by simp) (by simp) (Ne.symm h0)
    have h4 : List.modifyHead (fun h => ([] : GoString).drop 0 ++ h)
        (List.splitOnP isTerminator s) = List.splitOnP isTerminator s := by
      cases List.splitOnP isTerminator s <;> rfl
    rw [h4] at h
    simpa [reFindAllStringIndex] using h

theorem findAllIndexFrom_slices (s rest pre : GoString) (hs : s = pre ++ rest) :
    (findAllIndexFrom pre.length rest).map (fun m => slice s m.1 m.2) =
      (rest.filter isTerminator).map (fun c => [c]) := by
  induction rest generalizing pre with
  | nil => simp [findAllIndexFrom]
  | cons c cs ih =>
    have hs' : s = (pre ++ [c]) ++ cs := by simp [hs]
    have h1 := ih (pre ++ [c]) hs'
    have hlen : (pre ++ [c]).length = pre.length + 1 := by simp
    rw [hlen] at h1
    by_cases hc : isTerminator c = true
    · simp only [findAllIndexFrom, hc, if_true, List.map_cons, List.filter_cons, h1]
      rw [hs, slice_one]
    · simp only [findAllIndexFrom, hc, if_false, Bool.false_eq_true, List.filter_cons, h1]

/-- Go's `re.FindAllString(text, -1)` returns the terminators of the text in order,
each as a one-character string. -/
theorem reFindAllString_eq (s : GoString) :
    reFindAllString s = (s.filter isTerminator).map (fun c => [c]) :=
  findAllIndexFrom_slices s s [] (by simp)

theorem fragments_eq_cut (text : GoString) :
    fragments text = (cut text).1.map Prod.fst ++ [(cut text).2] := by
  unfold fragments
  induction text with
  | nil => simp [cut]
  | cons c cs ih =>
    rw [List.splitOnP_cons, ih]
    by_cases hc : isTerminator c = true
    · simp [cut, hc]
    · simp only [hc, if_false, Bool.false_eq_true, cut]
      cases h : (cut cs).1 with
      | nil => simp [List.modifyHead]
      | cons p more =>
        obtain ⟨b, t⟩ := p
        simp [List.modifyHead]

theorem terminators_eq_cut (text : GoString) :
    text.filter isTerminator = (cut text).1.map Prod.snd := by
  induction text with
  | nil => simp [cut]
  | cons c cs ih =>
    by_cases hc : isTerminator c = true
    · simp [cut, hc, ih]
    · have hcut := fragments_eq_cut cs
      simp only [List.filter_cons, hc, if_false, Bool.false_eq_true, cut, ih]
      cases h : (cut cs).1 with
      | nil => simp
      | cons p more =>
        obtain ⟨b, t⟩ := p
        simp

theorem sentencesLoop_cons (ms : List GoString) (i : Nat) (part : GoString)
    (rest acc : List GoString) :
    sentencesLoop ms i (part :: rest) acc =
      if trimSpace part = [] then sentencesLoop ms (i + 1) rest acc
      else if (if i < ms.length then trimSpace part ++ ms.getD i [] else trimSpace part) ≠ []
        then sentencesLoop ms (i + 1) rest
          (acc ++ [if i < ms.length then trimSpace part ++ ms.getD i [] else trimSpace part])
        else sentencesLoop ms (i + 1) rest acc := by
  simp only [sentencesLoop]

/-- The loop of `splitSentences` on parts and matches that come from the same cuts:
each non-blank stretch gives its trimmed text followed by its terminator, a non-blank
remainder gives its trimmed text. -/
theorem sentencesLoop_cut (init : List (GoString × Char)) (last : GoString)
    (ms0 : List GoString) (acc : List GoString) :
    sentencesLoop (ms0 ++ init.map (fun p => [p.2])) ms0.length
        (init.map Prod.fst ++ [last]) acc =
      acc ++ init.filterMap
          (fun p => if trimSpace p.1 = [] then none else some (trimSpace p.1 ++ [p.2])) ++
        (if trimSpace last = [] then [] else [trimSpace last]) := by
  induction init generalizing ms0 acc with
  | nil =>
    by_cases hb : trimSpace last = []
    · simp [sentencesLoop, hb]
    · simp [sentencesLoop, hb]
  | cons p init ih =>
    have hm : ms0 ++ List.map (fun p => [p.2]) (p :: init) =
        (ms0 ++ [[p.2]]) ++ List.map (fun p => [p.2]) init := by simp
    have hl : ms0.length + 1 = (ms0 ++ [[p.2]]).length := by simp
    have hget : (ms0 ++ [[p.2]] ++ List.map (fun p => [p.2]) init).getD ms0.length [] =
        [p.2] := by
      rw [List.getD_eq_getElem?_getD, List.append_assoc,
        List.getElem?_append_right (le_refl _)]
      simp
    have hlt : ms0.length < (ms0 ++ [[p.2]] ++ List.map (fun p => [p.2]) init).length := by
      simp
    rw [hm, List.map_cons, List.cons_append, sentencesLoop_cons]
    by_cases hb : trimSpace p.1 = []
    · rw [if_pos hb, hl, ih]
      simp [hb]
    · rw [if_neg hb, if_pos hlt, hget]
      have hne : trimSpace p.1 ++ [p.2] ≠ [] := by simp
      rw [if_pos hne, hl, ih]
      simp [hb]

/-- The value of `splitSentences` in terms of the cuts of the text. -/
theorem splitSentences_eq_cut (text : GoString) :
    splitSentences text =
      (cut text).1.filterMap
          (fun p => if trimSpace p.1 = [] then none else some (trimSpace p.1 ++ [p.2])) ++
        (if trimSpace (cut text).2 = [] then [] else [trimSpace (cut text).2]) := by
  unfold splitSentences
  simp only []
  rw [reSplit_eq_fragments, fragments_eq_cut, reFindAllString_eq, terminators_eq_cut,
    List.map_map]
  have h := sentencesLoop_cut (cut text).1 (cut text).2 [] []
  simpa using h

theorem trimSpace_isInfix (s : GoString) : trimSpace s <:+: s :=
  (List.rdropWhile_prefix isSpace _).isInfix.trans (List.dropWhile_suffix isSpace).isInfix

theorem cut_flatten (text : GoString) :
    ((cut text).1.map (fun p => p.1 ++ [p.2])).flatten ++ (cut text).2 = text := by
  induction text with
  | nil => simp [cut]
  | cons c cs ih =>
    by_cases hc : isTerminator c = true
    · simp only [cut, hc, if_true, List.map_cons, List.flatten_cons, List.nil_append,
        List.singleton_append, List.cons_append, ih]
    · simp only [cut, hc, if_false, Bool.false_eq_true]
      cases h : (cut cs).1 with
      | nil =>
        rw [h] at ih
        simpa using ih
      | cons p more =>
        obtain ⟨b, t⟩ := p
        rw [h] at ih
        simpa using ih

theorem cut_terminators (text : GoString) :
    (∀ p ∈ (cut text).1, (∀ c ∈ p.1, isTerminator c = false) ∧ isTerminator p.2 = true) ∧
      ∀ c ∈ (cut text).2, isTerminator c = false := by
  induction text with
  | nil => simp [cut]
  | cons c cs ih =>
    by_cases hc : isTerminator c = true
    · simp only [cut, hc, if_true]
      refine ⟨?_, ih.2⟩
      intro p hp
      rcases List.mem_cons.mp hp with rfl | hp
      · simp [hc]
      · exact ih.1 p hp
    · have hc' : isTerminator c = false := by simpa using hc
      simp only [cut, hc, if_false, Bool.false_eq_true]
      cases h : (cut cs).1 with
      | nil =>
        refine ⟨by simp, ?_⟩
        intro x hx
        rcases List.mem_cons.mp hx with rfl | hx
        · exact hc'
        · exact ih.2 x hx
      | cons p more =>
        obtain ⟨b, t⟩ := p
        rw [h] at ih
        refine ⟨?_, ih.2⟩
        intro q hq
        rcases List.mem_cons.mp hq with rfl | hq
        · have := ih.1 (b, t) (List.mem_cons_self _ _)
          refine ⟨?_, this.2⟩
          intro x hx
          rcases List.mem_cons.mp hx with rfl | hx
          · exact hc'
          · exact this.1 x hx
        · exact ih.1 q (List.mem_cons_of_mem _ hq)

theorem flatten_terminated (l : List (GoString × Char))
    (h : ∀ p ∈ l, isTerminator p.2 = true) :
    (l.map (fun p => p.1 ++ [p.2])).flatten = [] ∨
      ∃ pre c, (l.map (fun p => p.1 ++ [p.2])).flatten = pre ++ [c] ∧ isTerminator c = true := by
  rcases List.eq_nil_or_concat l with rfl | ⟨l', q, rfl⟩
  · left; simp
  · right
    refine ⟨(l'.map (fun p => p.1 ++ [p.2])).flatten ++ q.1, q.2, by simp, ?_⟩
    exact h q (by simp)

/-- Every terminated stretch of `cut`, and its remainder, is a stretch of the text
in the sense of `CutAt`. -/
theorem cutAt_of_cut (text : GoString) :
    (∀ p ∈ (cut text).1, CutAt text p.1 [p.2]) ∧ CutAt text (cut text).2 [] := by
  have hj := cut_flatten text
  have ht := cut_terminators text
  constructor
  · intro p hp
    obtain ⟨i1, i2, hi⟩ := List.append_of_mem hp
    have hi1 : ∀ q ∈ i1, isTerminator q.2 = true := by
      intro q hq
      exact (ht.1 q (by rw [hi]; simp [hq])).2
    refine ⟨(i1.map (fun p => p.1 ++ [p.2])).flatten,
      (i2.map (fun p => p.1 ++ [p.2])).flatten ++ (cut text).2, ?_, (ht.1 p hp).1,
      flatten_terminated i1 hi1, Or.inl ⟨p.2, rfl, (ht.1 p hp).2⟩⟩
    rw [hi] at hj
    simpa using hj.symm
  · have hall : ∀ q ∈ (cut text).1, isTerminator q.2 = true := fun q hq => (ht.1 q hq).2
    refine ⟨((cut text).1.map (fun p => p.1 ++ [p.2])).flatten, [], ?_, ht.2,
      flatten_terminated _ hall, Or.inr ⟨rfl, rfl⟩⟩
    simpa using hj.symm

theorem forall₂_units (init : List (GoString × Char))
    (hterm : ∀ p ∈ init, isTerminator p.2 = true) :
    List.Forall₂
      (fun fragment unit => unit = trimSpace fragment ∨
        ∃ c, isTerminator c = true ∧ unit = trimSpace fragment ++ [c])
      ((init.map Prod.fst).filter nonBlank)
      (init.filterMap
        (fun p => if trimSpace p.1 = [] then none else some (trimSpace p.1 ++ [p.2]))) := by
  induction init with
  | nil => simp
  | cons p init ih =>
    have ih' := ih (fun q hq => hterm q (List.mem_cons_of_mem _ hq))
    by_cases hb : trimSpace p.1 = []
    · simpa [nonBlank, hb] using ih'
    · have hnb : nonBlank p.1 = true := by simp [nonBlank, hb]
      rw [List.map_cons, List.filter_cons_of_pos hnb, List.filterMap_cons]
      simp only [hb, if_false]
      exact List.Forall₂.cons (Or.inr ⟨p.2, hterm p (List.mem_cons_self _ _), rfl⟩) ih'

/-- **C3.** `splitSentences` returns one unit per fragment of the text with non-blank
trimmed content, in the order of the fragments, the unit being the trimmed fragment
with at most its terminator appended; the empty text yields no unit and
"Hello, world! How are you?" yields "Hello, world!" and "How are you?". -/
theorem splitSentences_unit_per_nonblank_fragment (text : GoString) :
    (splitSentences text).length = ((fragments text).filter nonBlank).length ∧
    List.Forall₂
      (fun fragment unit => unit = trimSpace fragment ∨
        ∃ c, isTerminator c = true ∧ unit = trimSpace fragment ++ [c])
      ((fragments text).filter nonBlank) (splitSentences text) ∧
    splitSentences [] = [] ∧
    splitSentences "Hello, world! How are you?".toList =
      ["Hello, world!".toList, "How are you?".toList] := by
  have hrel : List.Forall₂
      (fun fragment unit => unit = trimSpace fragment ∨
        ∃ c, isTerminator c = true ∧ unit = trimSpace fragment ++ [c])
      ((fragments text).filter nonBlank) (splitSentences text) := by
    rw [splitSentences_eq_cut, fragments_eq_cut, List.filter_append]
    apply List.rel_append (forall₂_units _ (fun p hp => ((cut_terminators text).1 p hp).2))
    by_cases hb : trimSpace (cut text).2 = []
    · simp [nonBlank, hb]
    · simp [nonBlank, hb]
  exact ⟨hrel.length_eq.symm, hrel, by decide, by decide⟩

/-- **C4, as stated, fails.** On the text "a !" the only unit returned is "a!", which is
not the trimmed stretch of the text up to and including the terminator ("a !"). -/
theorem splitSentences_not_trimmed_through_terminator :
    ¬ ∀ unit ∈ splitSentences "a !".toList,
      TrimmedThroughTerminator "a !".toList unit := by
  intro h
  obtain ⟨body, t, ⟨pre, rest, htext, -, -, -⟩, hu⟩ := h "a!".toList (by decide)
  have h1 : trimSpace (body ++ t) <:+: "a !".toList := by
    refine (trimSpace_isInfix _).trans ?_
    rw [htext]
    exact ⟨pre, rest, by simp⟩
  rw [← hu] at h1
  revert h1
  decide

/-- **C4, amended.** Each unit returned by `splitSentences` is the whitespace-trimmed
stretch of the text from just after the previous cut up to (not including) its
terminator, followed by that terminator when one follows. -/
theorem splitSentences_trimmed_before_terminator (text unit : GoString)
    (hunit : unit ∈ splitSentences text) : TrimmedBeforeTerminator text unit := by
  rw [splitSentences_eq_cut, List.mem_append] at hunit
  have hc := cutAt_of_cut text
  rcases hunit with h | h
  · obtain ⟨p, hp, hpu⟩ := List.mem_filterMap.mp h
    by_cases hb : trimSpace p.1 = []
    · simp [hb] at hpu
    · simp only [hb, if_false] at hpu
      cases hpu
      exact ⟨p.1, [p.2], hc.1 p hp, rfl⟩
  · by_cases hb : trimSpace (cut text).2 = []
    · simp [hb] at h
    · simp only [hb, if_false, List.mem_singleton] at h
      exact ⟨(cut text).2, [], hc.2, by simp [h]⟩

/-- The amended C4 on the text "a !  b", at its unit "a!". -/
theorem splitSentences_trimmed_before_terminator_witness :
    "a!".toList ∈ splitSentences "a !  b".toList ∧
      TrimmedBeforeTerminator "a !  b".toList "a!".toList :=
  ⟨by decide, splitSentences_trimmed_before_terminator _ _ (by decide)⟩

/-! ## Properties of the cache and of `generateAudio` -/

theorem readFile_writeFile (files : List (GoString × Bytes)) (path : GoString)
    (data : Bytes) : readFile (writeFile files path data) path = some data := by
  simp [readFile, writeFile]

theorem sliceTo_lastIndexSlash_of_mem {s : GoString} (h : '/' ∈ s) :
    ∃ dir, sliceTo s (lastIndexSlash s) = some dir := by
  have h1 : s.reverse.indexOf '/' < s.reverse.length :=
    List.indexOf_lt_length.mpr (List.mem_reverse.mpr h)
  rw [List.length_reverse] at h1
  refine ⟨s.take (lastIndexSlash s).toNat, ?_⟩
  unfold sliceTo lastIndexSlash
  rw [if_pos h, if_pos]
  constructor <;> omega

theorem sliceTo_lastIndexSlash_of_not_mem {s : GoString} (h : '/' ∉ s) :
    sliceTo s (lastIndexSlash s) = none := by
  unfold sliceTo lastIndexSlash
  rw [if_neg h, if_neg]
  omega

/-- Saving to the cache completes, with or without an error, when the cache file name
contains a slash. -/
theorem saveToCache_isSome (env : Env) (cfg : Config) (text : GoString)
    (data : Option Bytes) (cacheEnabled : Bool) (w : World)
    (hpath : cacheEnabled = true → '/' ∈ getCacheFilename env cfg text) :
    ∃ err w', saveToCache env cfg text data cacheEnabled w = some (err, w') ∧
      w'.log = w.log := by
  unfold saveToCache
  cases cacheEnabled with
  | false => exact ⟨none, w, by simp⟩
  | true =>
    obtain ⟨dir, hdir⟩ := sliceTo_lastIndexSlash_of_mem (hpath rfl)
    simp only [Bool.not_true, Bool.false_eq_true, if_false, hdir]
    cases mkdirAll env dir w with
    | some err => exact ⟨some err, w, rfl, rfl⟩
    | none =>
      cases env.writeFileError (getCacheFilename env cfg text) (data.getD []) w with
      | some r => exact ⟨some r.1, _, rfl, rfl⟩
      | none => exact ⟨none, _, rfl, rfl⟩

theorem finishGenerate_isSome (env : Env) (cfg : Config) (text : GoString)
    (cacheEnabled : Bool) (r : (Option Bytes × Option GoError) × World)
    (hpath : cacheEnabled = true → '/' ∈ getCacheFilename env cfg text) :
    ∃ audioData err w', finishGenerate env cfg text cacheEnabled r =
      some ((audioData, err), w') ∧ (err ≠ none → audioData = none) := by
  obtain ⟨⟨audioData, err⟩, w1⟩ := r
  cases err with
  | some e => exact ⟨none, some e, w1, rfl, fun _ => rfl⟩
  | none =>
    cases hce : cacheEnabled with
    | false => exact ⟨audioData, none, w1, by simp [finishGenerate], fun h => absurd rfl h⟩
    | true =>
      obtain ⟨serr, w2, hw2, -⟩ :=
        saveToCache_isSome env cfg text audioData cacheEnabled w1 hpath
      rw [hce] at hw2
      exact ⟨audioData, none, w2, by simp [finishGenerate, hw2], fun h => absurd rfl h⟩

/-- The backend call completes when the local engine does not answer the audio query
with `null`. -/
theorem callBackend_isSome (env : Env) (cfg : Config) (text : GoString) (w : World)
    (hquery : cfg.Source = "local".toList →
      env.localQuery cfg text w ≠ AudioQueryReply.null) :
    ∃ answer, callBackend env cfg text w = some answer := by
  unfold callBackend
  by_cases hsrc : cfg.Source = "local".toList
  · rw [if_pos hsrc]
    unfold generateAudioLocal
    cases hq : env.localQuery cfg text w with
    | failed err => exact ⟨_, rfl⟩
    | null => exact absurd hq (hquery hsrc)
    | object => exact ⟨_, rfl⟩
  · rw [if_neg hsrc]
    exact ⟨_, rfl⟩

/-- `generateAudio` completes when the cache file name contains a slash (or caching is
off) and the local engine does not answer the audio query with `null`; a result
carrying an error carries no bytes. -/
theorem generateAudio_isSome (env : Env) (cfg : Config) (text : GoString)
    (cacheEnabled : Bool) (w : World)
    (hpath : cacheEnabled = true → '/' ∈ getCacheFilename env cfg text)
    (hquery : cfg.Source = "local".toList →
      env.localQuery cfg text w ≠ AudioQueryReply.null) :
    ∃ audioData err w', generateAudio env cfg text cacheEnabled w =
      some ((audioData, err), w') ∧ (err ≠ none → audioData = none) := by
  obtain ⟨answer, hanswer⟩ := callBackend_isSome env cfg text w hquery
  have hfin := finishGenerate_isSome env cfg text cacheEnabled answer hpath
  unfold generateAudio
  rw [hanswer]
  rcases checkCache env cfg text cacheEnabled w with ⟨cached, cerr⟩
  cases cached with
  | none => exact hfin
  | some c =>
    cases cerr with
    | none => exact ⟨some c, none, w, rfl, fun h => absurd rfl h⟩
    | some e => exact hfin

/-- When the cache misses and the backend fails, `generateAudio` returns the error of
the backend with nil bytes, whatever bytes the backend returned with it. -/
theorem generateAudio_of_backend_error (env : Env) (cfg : Config) (text : GoString)
    (cacheEnabled : Bool) (w w1 : World) (audioData : Option Bytes) (err : GoError)
    (hmiss : ∀ cached, checkCache env cfg text cacheEnabled w ≠ (some cached, none))
    (hfail : callBackend env cfg text w = some ((audioData, some err), w1)) :
    generateAudio env cfg text cacheEnabled w = some ((none, some err), w1) := by
  unfold generateAudio
  rw [hfail]
  rcases hc : checkCache env cfg text cacheEnabled w with ⟨cached, cerr⟩
  cases cached with
  | none => rfl
  | some c =>
    cases cerr with
    | none => exact absurd hc (hmiss c)
    | some e => rfl

theorem checkCache_after_finish (env : Env) (cfg : Config) (text : GoString)
    (r : (Option Bytes × Option GoError) × World) (w1 : World) (b : Bytes)
    (hsave : ∀ data w0 err w', saveToCache env cfg text data true w0 ≠ some (some err, w'))
    (hread : ∀ w', env.readFileError (getCacheFilename env cfg text) w' = none)
    (h : finishGenerate env cfg text true r = some ((some b, none), w1)) :
    checkCache env cfg text true w1 = (some b, none) := by
  obtain ⟨⟨audioData, err⟩, w0⟩ := r
  cases err with
  | some e => simp [finishGenerate] at h
  | none =>
    simp only [finishGenerate, if_true] at h
    have hs := hsave audioData w0
    unfold saveToCache at h hs
    simp only [Bool.not_true, Bool.false_eq_true, if_false] at h hs
    cases hsl : sliceTo (getCacheFilename env cfg text)
        (lastIndexSlash (getCacheFilename env cfg text)) with
    | none => simp [hsl] at h
    | some dir =>
      simp only [hsl] at h hs
      cases hmk : mkdirAll env dir w0 with
      | some e => exact absurd (by simp [hmk]) (hs e w0)
      | none =>
        simp only [hmk] at h hs
        cases hwr : env.writeFileError (getCacheFilename env cfg text)
            (audioData.getD []) w0 with
        | some r => exact absurd (by simp [hwr]) (hs r.1 { w0 with files := r.2 })
        | none =>
          simp only [hwr, Option.some.injEq, Prod.mk.injEq] at h
          obtain ⟨⟨had, -⟩, hw⟩ := h
          subst had
          rw [← hw]
          simp [checkCache, readFile_writeFile, hread]

/-- With caching enabled, when `saveToCache` returns no error for this text and the
cache file can be read, a call of `generateAudio` that succeeds with bytes `b` is
followed by a second call that returns `b` from the cache and calls no backend. -/
theorem generateAudio_second_call_of_saved (env : Env) (cfg : Config) (text : GoString)
    (w w1 : World) (b : Bytes)
    (hsave : ∀ data w0 err w', saveToCache env cfg text data true w0 ≠ some (some err, w'))
    (hread : ∀ w', env.readFileError (getCacheFilename env cfg text) w' = none)
    (hfirst : generateAudio env cfg text true w = some ((some b, none), w1)) :
    generateAudio env cfg text true w1 = some ((some b, none), w1) := by
  have hhit : checkCache env cfg text true w1 = (some b, none) := by
    unfold generateAudio at hfirst
    rcases hc : checkCache env cfg text true w with ⟨cached, cerr⟩
    rw [hc] at hfirst
    have hmiss : ∀ (answer : Option ((Option Bytes × Option GoError) × World)),
        (match answer with
          | none => none
          | some answer => finishGenerate env cfg text true answer) =
          some ((some b, none), w1) → checkCache env cfg text true w1 = (some b, none) := by
      intro answer h
      cases answer with
      | none => simp at h
      | some r => exact checkCache_after_finish env cfg text r w1 b hsave hread h
    cases cached with
    | none => exact hmiss _ hfirst
    | some c =>
      cases cerr with
      | some e => exact hmiss _ hfirst
      | none =>
        simp only [Option.some.injEq, Prod.mk.injEq] at hfirst
        obtain ⟨⟨hcb, -⟩, hw⟩ := hfirst
        rw [← hw, hc, hcb]
  unfold generateAudio
  rw [hhit]

/-- **C7, failing input.** With `AIVIS_CACHE_DIR=/` and `AIVISSPEECH_SPEAKER=.` the only
slash of the cache file name is its first character, so `saveToCache` asks
`os.MkdirAll` for the empty path and returns its error before writing anything: the
first call of `generateAudio` succeeds with the bytes of the backend and caches
nothing, and the second call asks the backend again.  With the default configuration
the second call returns the bytes from the cache and leaves the world unchanged. -/
theorem generateAudio_root_cache_dir_saves_nothing :
    getCacheFilename sampleEnv rootConfig "Hello!".toList =
      "/334d016f755cd6dc58c53a86e183882f8ec14f52fb05345887c8a5edd42c87b7.wav".toList ∧
    generateAudio sampleEnv rootConfig "Hello!".toList true World.empty =
      some ((some [82, 73, 70], none),
        World.mk [] [Event.localCall "Hello!".toList]) ∧
    generateAudio sampleEnv rootConfig "Hello!".toList true
        (World.mk [] [Event.localCall "Hello!".toList]) =
      some ((some [82, 73, 70], none),
        World.mk [] [Event.localCall "Hello!".toList, Event.localCall "Hello!".toList]) ∧
    backendCalls [Event.localCall "Hello!".toList, Event.localCall "Hello!".toList] = 2 ∧
    generateAudio sampleEnv defaultConfig "Hello!".toList true World.empty =
      some ((some [82, 73, 70], none), World.afterHello) ∧
    generateAudio sampleEnv defaultConfig "Hello!".toList true World.afterHello =
      some ((some [82, 73, 70], none), World.afterHello) := by
  refine ⟨by decide, by decide, by decide, by decide, by decide, by decide⟩

/-! ## Properties of the generation goroutine -/

/-- The loop of the generation goroutine sends one result per remaining sentence, with
consecutive indices, when nothing makes `generateAudio` panic. -/
theorem generationLoop_sends_all (env : Env) (cfg : Config) (cacheEnabled : Bool)
    (format : GoString) (rest : List GoString) (i : Int) (w : World) (sent : List AudioData)
    (hpath : cacheEnabled = true → ∀ s ∈ rest, '/' ∈ getCacheFilename env cfg s)
    (hquery : cfg.Source = "local".toList →
      ∀ s ∈ rest, ∀ w', env.localQuery cfg s w' ≠ AudioQueryReply.null) :
    ∃ more w', generationLoop env cfg cacheEnabled format i rest w sent =
        some (sent ++ more, w') ∧
      more.map (fun a => a.Index) = (List.range rest.length).map (fun (k : Nat) => i + (k : Int)) ∧
      ∀ a ∈ more, (a.Error ≠ none → a.Buffer = none) ∧ a.Format = format := by
  induction rest generalizing i w sent with
  | nil => exact ⟨[], w, by simp [generationLoop], by simp, by simp⟩
  | cons s rest ih =>
    obtain ⟨audioData, err, w1, hg, hnil⟩ := generateAudio_isSome env cfg s cacheEnabled
      { w with log := debugLog cfg (DebugMsg.generating (i + 1) s) w.log }
      (fun h => hpath h s (List.mem_cons_self _ _))
      (fun h => hquery h s (List.mem_cons_self _ _) _)
    obtain ⟨more, w', hloop, hidx, hall⟩ := ih (i + 1)
      { w1 with log := debugLog cfg (DebugMsg.generated (i + 1) s) w1.log }
      (sent ++ [{ Index := i, Buffer := audioData, Format := format, Error := err }])
      (fun h x hx => hpath h x (List.mem_cons_of_mem _ hx))
      (fun h x hx => hquery h x (List.mem_cons_of_mem _ hx))
    refine ⟨{ Index := i, Buffer := audioData, Format := format, Error := err } :: more, w',
      ?_, ?_, ?_⟩
    · simp only [generationLoop, hg, hloop]
      simp
    · simp only [List.map_cons, hidx, List.length_cons, List.range_succ_eq_map, List.map_map]
      simp only [List.map_cons, Nat.cast_zero, add_zero, List.cons.injEq, true_and]
      apply List.map_congr_left
      intro k _
      simp only [Function.comp_apply, Nat.cast_succ]
      omega
    · intro a ha
      rcases List.mem_cons.mp ha with rfl | ha
      · exact ⟨hnil, rfl⟩
      · exact hall a ha

/-- The generation goroutine sends exactly one result per sentence, the `i`-th with
index `i`, and a result carrying an error carries no bytes, when nothing makes
`generateAudio` panic: the cache file names contain a slash (or caching is off) and
the local engine does not answer an audio query with `null`. -/
theorem generationStage_sends_all (env : Env) (cfg : Config) (sentences : List GoString)
    (cacheEnabled : Bool) (w : World) (hne : sentences ≠ [])
    (hpath : cacheEnabled = true → ∀ s ∈ sentences, '/' ∈ getCacheFilename env cfg s)
    (hquery : cfg.Source = "local".toList →
      ∀ s ∈ sentences, ∀ w', env.localQuery cfg s w' ≠ AudioQueryReply.null) :
    ∃ audioChannel w', generationStage env cfg sentences cacheEnabled w =
        some (audioChannel, w') ∧
      audioChannel.map (fun a => a.Index) = (List.range sentences.length).map Int.ofNat ∧
      ∀ a ∈ audioChannel, (a.Error ≠ none → a.Buffer = none) ∧ a.Format = audioFormat cfg := by
  cases sentences with
  | nil => exact absurd rfl hne
  | cons first rest =>
    obtain ⟨audioData, err, w1, hg, hnil⟩ := generateAudio_isSome env cfg first cacheEnabled
      { w with log := debugLog cfg (DebugMsg.generating 1 first) w.log }
      (fun h => hpath h first (List.mem_cons_self _ _))
      (fun h => hquery h first (List.mem_cons_self _ _) _)
    obtain ⟨more, w', hloop, hidx, hall⟩ := generationLoop_sends_all env cfg cacheEnabled
      (audioFormat cfg) rest 1 w1
      [{ Index := 0, Buffer := audioData, Format := audioFormat cfg, Error := err }]
      (fun h x hx => hpath h x (List.mem_cons_of_mem _ hx))
      (fun h x hx => hquery h x (List.mem_cons_of_mem _ hx))
    refine ⟨{ Index := 0, Buffer := audioData, Format := audioFormat cfg, Error := err } ::
      more, w', by simp only [generationStage, hg, hloop, List.singleton_append], ?_, ?_⟩
    · simp only [List.map_cons, hidx, List.length_cons,
        List.range_succ_eq_map, List.map_map]
      simp only [List.map_cons, Int.ofNat_eq_coe, Nat.cast_zero, List.cons.injEq, true_and]
      apply List.map_congr_left
      intro k _
      simp only [Function.comp_apply, Int.ofNat_eq_coe, Nat.succ_eq_add_one, Nat.cast_add,
        Nat.cast_one]
      omega
    · intro a ha
      rcases List.mem_cons.mp ha with rfl | ha
      · exact ⟨hnil, rfl⟩
      · exact hall a ha

/-- **C8, failing input.** With `AIVIS_CACHE_DIR=.` and `AIVISSPEECH_SPEAKER=.` the
cache file name has no slash; with caching enabled the generation goroutine panics in
`saveToCache` after the backend has answered for the first sentence, and sends nothing
more, whereas without caching it sends the two results. -/
theorem generationStage_panics_without_slash :
    getCacheFilename sampleEnv dotConfig "Hello!".toList =
      "334d016f755cd6dc58c53a86e183882f8ec14f52fb05345887c8a5edd42c87b7.wav".toList ∧
    generationStage sampleEnv dotConfig ["Hello!".toList, "World!".toList] true World.empty =
      none ∧
    (generationStage sampleEnv dotConfig ["Hello!".toList, "World!".toList] false
        World.empty).map Prod.fst =
      some [okResult 0, failedResult 1] := by
  refine ⟨by decide, by decide, by decide⟩

/-! ## Properties of the main playback loop -/

theorem debugLog_eq (cfg : Config) (msg : DebugMsg) (log : List Event) :
    ∃ extra, debugLog cfg msg log = log ++ extra ∧
      (∀ e ∈ extra, e.isPlayOrDebug = true) ∧ played extra = [] := by
  unfold debugLog
  cases cfg.Debug with
  | false => exact ⟨[], by simp, by simp, rfl⟩
  | true => exact ⟨[Event.debug msg], by simp, by simp [Event.isPlayOrDebug], rfl⟩

/-- One turn of the playback loop appends the segment of its unit to the log. -/
theorem playbackBody_segment (env : Env) (cfg : Config) (sentences : List GoString)
    (audio : AudioData) (log : List Event) (sentence : GoString)
    (hs : indexSentence sentences audio.Index = some sentence) :
    ∃ segment, playbackBody env cfg sentences audio log = some (log ++ segment) ∧
      UnitSegment cfg sentences audio segment := by
  unfold playbackBody
  rw [hs]
  cases herr : audio.Error with
  | some err =>
    obtain ⟨extra, hd, hpd, hpl⟩ := debugLog_eq cfg
      (DebugMsg.generationError (audio.Index + 1) err) (log ++ [Event.println sentence])
    refine ⟨Event.println sentence :: extra, by simp [hd], sentence, extra, hs, ?_, hpd, ?_⟩
    · simp [herr]
    · simp [herr, hpl]
  | none =>
    have hmid : ∃ middle,
        (match audio.Buffer with
          | some buffer =>
            match playAudio env (some buffer) audio.Format (log ++ [Event.println sentence]) with
            | (some err, l) => debugLog cfg (DebugMsg.playError (audio.Index + 1) err) l
            | (none, l) => l
          | none => log ++ [Event.println sentence]) =
          log ++ Event.println sentence :: middle ∧
        (∀ e ∈ middle, e.isPlayOrDebug = true) ∧
        played middle = (audio.Buffer.map (fun b => (b, audio.Format))).toList := by
      cases hb : audio.Buffer with
      | none => exact ⟨[], by simp, by simp, by simp [played]⟩
      | some buffer =>
        simp only [playAudio, Option.getD_some]
        cases hsink : env.sink buffer audio.Format (log ++ [Event.println sentence]) with
        | none =>
          exact ⟨[Event.play buffer audio.Format], by simp, by simp [Event.isPlayOrDebug],
            by simp [played]⟩
        | some perr =>
          obtain ⟨extra, hd, hpd, hpl⟩ := debugLog_eq cfg
            (DebugMsg.playError (audio.Index + 1) perr)
            (log ++ [Event.println sentence] ++ [Event.play buffer audio.Format])
          refine ⟨Event.play buffer audio.Format :: extra, by simpa using hd, ?_, ?_⟩
          · intro e he
            rcases List.mem_cons.mp he with rfl | he
            · rfl
            · exact hpd e he
          · have : played (Event.play buffer audio.Format :: extra) =
                (buffer, audio.Format) :: played extra := by
              simp [played]
            rw [this, hpl]
            simp
    obtain ⟨middle, hm, hpd, hpl⟩ := hmid
    simp only [hm]
    by_cases hlt : audio.Index < (sentences.length : Int) - 1
    · refine ⟨Event.println sentence :: middle ++ [Event.sleep cfg.SleepTime], ?_,
        sentence, middle, hs, ?_, hpd, ?_⟩
      · simp [hlt]
      · simp [hlt, herr]
      · simp [herr, hpl]
    · refine ⟨Event.println sentence :: middle, ?_, sentence, middle, hs, ?_, hpd, ?_⟩
      · simp [hlt]
      · simp [hlt]
      · simp [herr, hpl]

/-- The playback loop completes on a stream whose indices are indices of `sentences`,
and its log is made of one segment per unit, in the order of the stream. -/
theorem playbackLoop_segments (env : Env) (cfg : Config) (sentences : List GoString)
    (stream : List AudioData) (log : List Event)
    (hidx : ∀ a ∈ stream, ∃ s, indexSentence sentences a.Index = some s) :
    ∃ segments, playbackLoop env cfg sentences stream log = some (log ++ segments.flatten) ∧
      List.Forall₂ (UnitSegment cfg sentences) stream segments := by
  induction stream generalizing log with
  | nil => exact ⟨[], by simp [playbackLoop], List.Forall₂.nil⟩
  | cons a rest ih =>
    obtain ⟨s, hs⟩ := hidx a (List.mem_cons_self _ _)
    obtain ⟨segment, hbody, hseg⟩ := playbackBody_segment env cfg sentences a log s hs
    obtain ⟨segments, hloop, hall⟩ := ih (log ++ segment)
      (fun x hx => hidx x (List.mem_cons_of_mem _ hx))
    exact ⟨segment :: segments, by simp [playbackLoop, hbody, hloop],
      List.Forall₂.cons hseg hall⟩

theorem printed_append (l₁ l₂ : List Event) : printed (l₁ ++ l₂) = printed l₁ ++ printed l₂ := by
  simp [printed, List.filterMap_append]

theorem played_append (l₁ l₂ : List Event) : played (l₁ ++ l₂) = played l₁ ++ played l₂ := by
  simp [played, List.filterMap_append]

theorem printed_flatten (segments : List (List Event)) :
    printed segments.flatten = (segments.map printed).flatten := by
  induction segments with
  | nil => rfl
  | cons s rest ih => simp [printed_append, ih]

theorem played_flatten (segments : List (List Event)) :
    played segments.flatten = (segments.map played).flatten := by
  induction segments with
  | nil => rfl
  | cons s rest ih => simp [played_append, ih]

theorem printed_of_playOrDebug (middle : List Event)
    (h : ∀ e ∈ middle, e.isPlayOrDebug = true) : printed middle = [] := by
  induction middle with
  | nil => rfl
  | cons e rest ih =>
    have he := h e (List.mem_cons_self _ _)
    have hr := ih (fun x hx => h x (List.mem_cons_of_mem _ hx))
    cases e <;> simp_all [printed, Event.isPlayOrDebug]

theorem printed_unitSegment {cfg : Config} {sentences : List GoString} {audio : AudioData}
    {segment : List Event} (h : UnitSegment cfg sentences audio segment) :
    printed segment = (indexSentence sentences audio.Index).toList := by
  obtain ⟨sentence, middle, hs, rfl, hpd, -⟩ := h
  have h1 : printed (Event.println sentence :: middle) = [sentence] := by
    have := printed_of_playOrDebug middle hpd
    change printed ([Event.println sentence] ++ middle) = _
    rw [printed_append, this]
    rfl
  rw [printed_append, h1, hs]
  split <;> rfl

theorem played_unitSegment {cfg : Config} {sentences : List GoString} {audio : AudioData}
    {segment : List Event} (h : UnitSegment cfg sentences audio segment) :
    played segment =
      (if audio.Error = none then audio.Buffer.map (fun b => (b, audio.Format))
        else none).toList := by
  obtain ⟨sentence, middle, -, rfl, -, hpl⟩ := h
  have h1 : played (Event.println sentence :: middle) = played middle := by
    change played ([Event.println sentence] ++ middle) = _
    rw [played_append]
    rfl
  rw [played_append, h1, hpl]
  have h2 : played (if audio.Index < (sentences.length : Int) - 1 ∧ audio.Error = none
      then [Event.sleep cfg.SleepTime] else []) = [] := by
    split <;> rfl
  rw [h2]
  split <;> simp

theorem map_eq_of_forall₂ {α β γ : Type} {R : α → β → Prop} {f : β → γ} {g : α → γ}
    {l₁ : List α} {l₂ : List β} (h : List.Forall₂ R l₁ l₂)
    (hfg : ∀ a b, R a b → f b = g a) : l₂.map f = l₁.map g := by
  induction h with
  | nil => rfl
  | cons hab _ ih => simp [hfg _ _ hab, ih]

theorem filterMap_eq_flatten {α β : Type} (f : α → Option β) (l : List α) :
    (l.map (fun a => (f a).toList)).flatten = l.filterMap f := by
  induction l with
  | nil => rfl
  | cons a rest ih =>
    cases h : f a <;> simp [List.filterMap_cons, h, ih]

theorem flatten_getElem?_range (l : List GoString) :
    ((List.range l.length).map (fun k => (l[k]?).toList)).flatten = l := by
  induction l using List.reverseRecOn with
  | nil => rfl
  | append_singleton l x ih =>
    rw [List.length_append, List.length_singleton, List.range_succ, List.map_append,
      List.flatten_append]
    have h1 : (List.range l.length).map (fun k => ((l ++ [x])[k]?).toList) =
        (List.range l.length).map (fun k => (l[k]?).toList) := by
      apply List.map_congr_left
      intro k hk
      rw [List.mem_range] at hk
      simp [List.getElem?_append_left hk]
    rw [h1, ih]
    simp

theorem indexSentence_ofNat (sentences : List GoString) (k : Nat) :
    indexSentence sentences (Int.ofNat k) = sentences[k]? := by
  simp [indexSentence]

/-- On an ordered stream the playback loop completes and its log is made of the
segments of the units `0, ..., n-1`. -/
theorem playbackLoop_ordered (env : Env) (cfg : Config) (sentences : List GoString)
    (stream : List AudioData)
    (hidx : stream.map (fun a => a.Index) = (List.range sentences.length).map Int.ofNat) :
    ∃ segments, playbackLoop env cfg sentences stream [] = some segments.flatten ∧
      List.Forall₂ (UnitSegment cfg sentences) stream segments := by
  have hin : ∀ a ∈ stream, ∃ s, indexSentence sentences a.Index = some s := by
    intro a ha
    have := List.mem_map_of_mem (fun a => a.Index) ha
    rw [hidx] at this
    obtain ⟨k, hk, hka⟩ := List.mem_map.mp this
    rw [List.mem_range] at hk
    refine ⟨sentences[k], ?_⟩
    have hka' : a.Index = Int.ofNat k := hka.symm
    rw [hka', indexSentence_ofNat, List.getElem?_eq_getElem hk]
  simpa using playbackLoop_segments env cfg sentences stream [] hin

theorem printed_ordered (cfg : Config) (sentences : List GoString) (stream : List AudioData)
    (segments : List (List Event))
    (hidx : stream.map (fun a => a.Index) = (List.range sentences.length).map Int.ofNat)
    (hseg : List.Forall₂ (UnitSegment cfg sentences) stream segments) :
    printed segments.flatten = sentences := by
  rw [printed_flatten, map_eq_of_forall₂ hseg (fun _ _ h => printed_unitSegment h)]
  have h1 : stream.map (fun a => (indexSentence sentences a.Index).toList) =
      (stream.map (fun a => a.Index)).map (fun i => (indexSentence sentences i).toList) := by
    rw [List.map_map]
    rfl
  rw [h1, hidx, List.map_map]
  have h2 : ((fun i => (indexSentence sentences i).toList) ∘ Int.ofNat) =
      (fun k => (sentences[k]?).toList) := by
    funext k
    exact congrArg Option.toList (indexSentence_ofNat sentences k)
  rw [h2, flatten_getElem?_range]

theorem played_segments (cfg : Config) (sentences : List GoString) (stream : List AudioData)
    (segments : List (List Event))
    (hseg : List.Forall₂ (UnitSegment cfg sentences) stream segments) :
    played segments.flatten = stream.filterMap (fun a =>
      if a.Error = none then a.Buffer.map (fun b => (b, a.Format)) else none) := by
  rw [played_flatten, map_eq_of_forall₂ hseg (fun _ _ h => played_unitSegment h),
    filterMap_eq_flatten]

theorem audible_append (l₁ l₂ : List Event) : audible (l₁ ++ l₂) = audible l₁ ++ audible l₂ := by
  simp [audible, List.filter_append]

theorem audible_debugLog (cfg : Config) (msg : DebugMsg) (log : List Event) :
    audible (debugLog cfg msg log) = audible log := by
  unfold debugLog
  split
  · rw [audible_append]
    simp [audible]
  · rfl

theorem played_debugLog (cfg : Config) (msg : DebugMsg) (log : List Event) :
    played (debugLog cfg msg log) = played log := by
  unfold debugLog
  split
  · rw [played_append]
    simp [played]
  · rfl

theorem audible_flatten (segments : List (List Event)) :
    audible segments.flatten = (segments.map audible).flatten := by
  induction segments with
  | nil => rfl
  | cons s rest ih => simp [audible_append, ih]

theorem audible_of_playOrDebug (middle : List Event)
    (h : ∀ e ∈ middle, e.isPlayOrDebug = true) :
    audible middle = (played middle).map (fun p => Event.play p.1 p.2) := by
  induction middle with
  | nil => rfl
  | cons e rest ih =>
    have he := h e (List.mem_cons_self _ _)
    have hr := ih (fun x hx => h x (List.mem_cons_of_mem _ hx))
    cases e <;> simp_all [audible, played, Event.isPlayOrDebug]

theorem audible_unitSegment {cfg : Config} {sentences : List GoString} {audio : AudioData}
    {segment : List Event} (h : UnitSegment cfg sentences audio segment) :
    audible segment =
      (if audio.Error = none then audio.Buffer.map (fun b => Event.play b audio.Format)
        else none).toList ++
      (if audio.Index < (sentences.length : Int) - 1 ∧ audio.Error = none
        then [Event.sleep cfg.SleepTime] else []) := by
  obtain ⟨sentence, middle, -, rfl, hpd, hpl⟩ := h
  have h1 : audible (Event.println sentence :: middle) = audible middle := by
    change audible ([Event.println sentence] ++ middle) = _
    rw [audible_append]
    rfl
  have h2 : audible (if audio.Index < (sentences.length : Int) - 1 ∧ audio.Error = none
      then [Event.sleep cfg.SleepTime] else []) =
      (if audio.Index < (sentences.length : Int) - 1 ∧ audio.Error = none
      then [Event.sleep cfg.SleepTime] else []) := by
    split <;> rfl
  rw [audible_append, h1, h2, audible_of_playOrDebug middle hpd, hpl]
  congr 1
  split
  · cases audio.Buffer <;> rfl
  · rfl

/-- The log of the playback loop on three units whose middle one failed to generate:
unit 0 is played, one pause follows, and unit 2 is played. -/
theorem playbackLoop_middle_failed (env : Env) (cfg : Config) (s0 s1 s2 : GoString)
    (b0 b2 : Bytes) (f : GoString) (e : GoError) :
    ∃ log, playbackLoop env cfg [s0, s1, s2]
        [{ Index := 0, Buffer := some b0, Format := f, Error := none },
          { Index := 1, Buffer := none, Format := f, Error := some e },
          { Index := 2, Buffer := some b2, Format := f, Error := none }] [] = some log ∧
      audible log = [Event.play b0 f, Event.sleep cfg.SleepTime, Event.play b2 f] ∧
      played log = [(b0, f), (b2, f)] ∧ printed log = [s0, s1, s2] := by
  have hidx : ([{ Index := 0, Buffer := some b0, Format := f, Error := none },
      { Index := 1, Buffer := none, Format := f, Error := some e },
      { Index := 2, Buffer := some b2, Format := f, Error := none }] : List AudioData).map
        (fun a => a.Index) = (List.range [s0, s1, s2].length).map Int.ofNat := by
    rfl
  obtain ⟨segments, hloop, hseg⟩ := playbackLoop_ordered env cfg [s0, s1, s2] _ hidx
  refine ⟨segments.flatten, hloop, ?_, ?_, printed_ordered cfg _ _ _ hidx hseg⟩
  · rw [audible_flatten, map_eq_of_forall₂ hseg (fun _ _ h => audible_unitSegment h)]
    simp
  · rw [played_segments cfg _ _ _ hseg]
    simp

theorem pauses_append (l₁ l₂ : List Event) : pauses (l₁ ++ l₂) = pauses l₁ ++ pauses l₂ := by
  simp [pauses, List.filterMap_append]

theorem pauses_flatten (segments : List (List Event)) :
    pauses segments.flatten = (segments.map pauses).flatten := by
  induction segments with
  | nil => rfl
  | cons s rest ih => simp [pauses_append, ih]

theorem pauses_of_playOrDebug (middle : List Event)
    (h : ∀ e ∈ middle, e.isPlayOrDebug = true) : pauses middle = [] := by
  induction middle with
  | nil => rfl
  | cons e rest ih =>
    have he := h e (List.mem_cons_self _ _)
    have hr := ih (fun x hx => h x (List.mem_cons_of_mem _ hx))
    cases e <;> simp_all [pauses, Event.isPlayOrDebug]

theorem pauses_unitSegment {cfg : Config} {sentences : List GoString} {audio : AudioData}
    {segment : List Event} (h : UnitSegment cfg sentences audio segment) :
    pauses segment =
      (if audio.Index < (sentences.length : Int) - 1 ∧ audio.Error = none
        then some cfg.SleepTime else none).toList := by
  obtain ⟨sentence, middle, -, rfl, hpd, -⟩ := h
  have h1 : pauses (Event.println sentence :: middle) = [] := by
    change pauses ([Event.println sentence] ++ middle) = _
    rw [pauses_append, pauses_of_playOrDebug middle hpd]
    rfl
  rw [pauses_append, h1]
  split <;> rfl

/-- **C6.** On an ordered stream of results with indices `0, ..., n-1` the playback
loop prints every unit's text once, in index order, and runs the audio sink, in the
order of the stream, for exactly the units whose result carries no error and has
bytes, with these bytes and the result's format.  With three units of which unit 1
failed to generate, the sink receives unit 0 and then unit 2. -/
theorem playback_prints_all_plays_successful (env : Env) (cfg : Config)
    (sentences : List GoString) (stream : List AudioData)
    (hidx : stream.map (fun a => a.Index) = (List.range sentences.length).map Int.ofNat) :
    (∃ log, playbackLoop env cfg sentences stream [] = some log ∧
      printed log = sentences ∧
      played log = stream.filterMap (fun a =>
        if a.Error = none then a.Buffer.map (fun b => (b, a.Format)) else none)) ∧
    (∀ (s0 s1 s2 : GoString) (b0 b2 : Bytes) (f : GoString) (e : GoError),
      ∃ log, playbackLoop env cfg [s0, s1, s2]
          [{ Index := 0, Buffer := some b0, Format := f, Error := none },
            { Index := 1, Buffer := none, Format := f, Error := some e },
            { Index := 2, Buffer := some b2, Format := f, Error := none }] [] = some log ∧
        printed log = [s0, s1, s2] ∧ played log = [(b0, f), (b2, f)]) := by
  constructor
  · obtain ⟨segments, hloop, hseg⟩ := playbackLoop_ordered env cfg sentences stream hidx
    exact ⟨segments.flatten, hloop, printed_ordered cfg _ _ _ hidx hseg,
      played_segments cfg _ _ _ hseg⟩
  · intro s0 s1 s2 b0 b2 f e
    obtain ⟨log, hloop, -, hplayed, hprinted⟩ :=
      playbackLoop_middle_failed env cfg s0 s1 s2 b0 b2 f e
    exact ⟨log, hloop, hprinted, hplayed⟩

/-- C6 on two units, the second of which failed to generate. -/
theorem playback_prints_all_plays_successful_witness :
    [okResult 0, failedResult 1].map (fun a => a.Index) =
      (List.range ["Hello!".toList, "World!".toList].length).map Int.ofNat ∧
    ∃ log, playbackLoop sampleEnv defaultConfig ["Hello!".toList, "World!".toList]
        [okResult 0, failedResult 1] [] = some log ∧
      printed log = ["Hello!".toList, "World!".toList] ∧
      played log = [okResult 0, failedResult 1].filterMap (fun a =>
        if a.Error = none then a.Buffer.map (fun b => (b, a.Format)) else none) :=
  ⟨by decide, (playback_prints_all_plays_successful sampleEnv defaultConfig
    ["Hello!".toList, "World!".toList] [okResult 0, failedResult 1] (by decide)).1⟩

/-- **C9.** On an ordered stream of results with indices `0, ..., n-1` the log of the
playback loop is made of one segment per unit, and the segment of unit `i` ends with a
pause of `cfg.SleepTime` exactly when `i < n-1` and the result of unit `i` carries no
generation error; there is no other pause, in particular none after unit `n-1`.  With
three units of which unit 1 failed to generate, exactly one pause occurs, between the
playing of unit 0 and that of unit 2. -/
theorem playback_pauses_between_units (env : Env) (cfg : Config)
    (sentences : List GoString) (stream : List AudioData)
    (hidx : stream.map (fun a => a.Index) = (List.range sentences.length).map Int.ofNat) :
    (∃ segments, playbackLoop env cfg sentences stream [] = some segments.flatten ∧
      List.Forall₂ (UnitSegment cfg sentences) stream segments ∧
      pauses segments.flatten = stream.filterMap (fun a =>
        if a.Index < (sentences.length : Int) - 1 ∧ a.Error = none
          then some cfg.SleepTime else none)) ∧
    (∀ (s0 s1 s2 : GoString) (b0 b2 : Bytes) (f : GoString) (e : GoError),
      ∃ log, playbackLoop env cfg [s0, s1, s2]
          [{ Index := 0, Buffer := some b0, Format := f, Error := none },
            { Index := 1, Buffer := none, Format := f, Error := some e },
            { Index := 2, Buffer := some b2, Format := f, Error := none }] [] = some log ∧
        audible log = [Event.play b0 f, Event.sleep cfg.SleepTime, Event.play b2 f]) := by
  constructor
  · obtain ⟨segments, hloop, hseg⟩ := playbackLoop_ordered env cfg sentences stream hidx
    refine ⟨segments, hloop, hseg, ?_⟩
    rw [pauses_flatten, map_eq_of_forall₂ hseg (fun _ _ h => pauses_unitSegment h),
      filterMap_eq_flatten]
  · intro s0 s1 s2 b0 b2 f e
    obtain ⟨log, hloop, haud, -, -⟩ := playbackLoop_middle_failed env cfg s0 s1 s2 b0 b2 f e
    exact ⟨log, hloop, haud⟩

/-- C9 on three units, the middle one of which failed to generate. -/
theorem playback_pauses_between_units_witness :
    [okResult 0, failedResult 1, okResult 2].map (fun a => a.Index) =
      (List.range ["Hello!".toList, "World!".toList, "Bye".toList].length).map Int.ofNat ∧
    ∃ segments, playbackLoop sampleEnv defaultConfig
        ["Hello!".toList, "World!".toList, "Bye".toList]
        [okResult 0, failedResult 1, okResult 2] [] = some segments.flatten ∧
      List.Forall₂ (UnitSegment defaultConfig ["Hello!".toList, "World!".toList, "Bye".toList])
        [okResult 0, failedResult 1, okResult 2] segments ∧
      pauses segments.flatten = [okResult 0, failedResult 1, okResult 2].filterMap (fun a =>
        if a.Index < ((["Hello!".toList, "World!".toList, "Bye".toList].length : Nat) : Int) - 1 ∧
            a.Error = none
          then some defaultConfig.SleepTime else none) :=
  ⟨by decide, (playback_pauses_between_units sampleEnv defaultConfig
    ["Hello!".toList, "World!".toList, "Bye".toList] [okResult 0, failedResult 1, okResult 2]
    (by decide)).1⟩

/-! ## The result of `streamingTTS` -/

/-- For several sentences the three stages of `streamingTTS` complete, when nothing
makes `generateAudio` panic. -/
theorem streamingTTS_pipeline (env : Env) (cfg : Config) (sentences : List GoString)
    (cacheEnabled : Bool) (w : World) (hne : sentences ≠ [])
    (hpath : cacheEnabled = true → ∀ s ∈ sentences, '/' ∈ getCacheFilename env cfg s)
    (hquery : cfg.Source = "local".toList →
      ∀ s ∈ sentences, ∀ w', env.localQuery cfg s w' ≠ AudioQueryReply.null) :
    ∃ audioChannel w1 st log,
      generationStage env cfg sentences cacheEnabled w = some (audioChannel, w1) ∧
      reorderStage audioChannel = some st ∧
      playbackLoop env cfg sentences st.playChannel [] = some log := by
  obtain ⟨audioChannel, w1, hgen, hidx, -⟩ :=
    generationStage_sends_all env cfg sentences cacheEnabled w hne hpath hquery
  obtain ⟨st, hst, ht, -, hlen⟩ := reorderStage_drains sentences.length audioChannel
    (by rw [hidx])
  have hsent : st.playChannel.map (fun a => a.Index) =
      (List.range sentences.length).map Int.ofNat := by
    rw [ht.ordered.sent, hlen]
  obtain ⟨segments, hloop, -⟩ := playbackLoop_ordered env cfg sentences st.playChannel hsent
  exact ⟨audioChannel, w1, st, segments.flatten, hgen, hst, hloop⟩

/-- **C5, as stated, fails.** A text of one unit whose generation fails makes
`streamingTTS` return the error of the backend. -/
theorem streamingTTS_single_unit_returns_error :
    splitSentences "World!".toList = ["World!".toList] ∧
    (streamingTTS sampleEnv defaultConfig "World!".toList false World.empty).map
        (fun r => r.err) = some (some "failed to synthesize audio (HTTP 500)") := by
  constructor <;> decide

/-- The other way C5, as stated, fails: with a local engine that answers the audio
query with `null`, `generateAudioLocal` panics and `streamingTTS` does not return,
with one unit or with several, caching off. -/
theorem streamingTTS_panics_on_null_query :
    streamingTTS nullQueryEnv defaultConfig "Hello!".toList false World.empty = none ∧
    streamingTTS nullQueryEnv defaultConfig "Hello! World!".toList false World.empty = none := by
  constructor <;> decide

/-- **C5, amended.** When nothing makes `generateAudio` panic (the cache file names
contain a slash or caching is off, and the local engine does not answer an audio query
with `null`), `streamingTTS` returns: nil when the text yields no unit or several
units, whatever the backend and the sink do; and, when the text yields exactly one
unit, the error of `generateAudio` if it fails and otherwise what `playAudio`
returns. -/
theorem streamingTTS_returns (env : Env) (cfg : Config) (text : GoString)
    (cacheEnabled : Bool) (w : World)
    (hpath : cacheEnabled = true →
      ∀ s ∈ splitSentences text, '/' ∈ getCacheFilename env cfg s)
    (hquery : cfg.Source = "local".toList →
      ∀ s ∈ splitSentences text, ∀ w', env.localQuery cfg s w' ≠ AudioQueryReply.null) :
    ∃ r, streamingTTS env cfg text cacheEnabled w = some r ∧
      ((splitSentences text).length ≠ 1 → r.err = none) ∧
      (∀ sentence, splitSentences text = [sentence] →
        ∃ audioData generr w1,
          generateAudio env cfg sentence cacheEnabled w = some ((audioData, generr), w1) ∧
          r.err = if generr.isSome then generr
            else env.sink (audioData.getD []) (audioFormat cfg) [Event.println sentence]) := by
  unfold streamingTTS
  rcases hs : splitSentences text with _ | ⟨s1, _ | ⟨s2, rest⟩⟩
  · exact ⟨_, rfl, fun _ => rfl, fun _ h => by simp at h⟩
  · rw [hs] at hpath hquery
    obtain ⟨audioData, err, w1, hg, -⟩ := generateAudio_isSome env cfg s1 cacheEnabled w
      (fun h => hpath h s1 (List.mem_singleton_self _))
      (fun h => hquery h s1 (List.mem_singleton_self _) w)
    simp only [hg]
    cases err with
    | some e =>
      refine ⟨_, rfl, fun h => absurd rfl h, ?_⟩
      intro sentence hsen
      simp only [List.cons.injEq, and_true] at hsen
      subst hsen
      exact ⟨audioData, some e, w1, hg, by simp⟩
    | none =>
      refine ⟨_, rfl, fun h => absurd rfl h, ?_⟩
      intro sentence hsen
      simp only [List.cons.injEq, and_true] at hsen
      subst hsen
      exact ⟨audioData, none, w1, hg, by simp [playAudio]⟩
  · rw [hs] at hpath hquery
    obtain ⟨audioChannel, w1, st, log, hgen, hst, hloop⟩ :=
      streamingTTS_pipeline env cfg (s1 :: s2 :: rest) cacheEnabled w (by simp) hpath hquery
    simp only [hgen, hst, hloop]
    exact ⟨_, rfl, fun _ => rfl, fun _ h => by simp at h⟩

/-- The amended C5 on a text of two units, the second of which fails to generate. -/
theorem streamingTTS_returns_witness :
    (∀ s ∈ splitSentences "Hello! World!".toList,
      '/' ∈ getCacheFilename sampleEnv defaultConfig s) ∧
    ∃ r, streamingTTS sampleEnv defaultConfig "Hello! World!".toList true World.empty =
        some r ∧
      ((splitSentences "Hello! World!".toList).length ≠ 1 → r.err = none) ∧
      (∀ sentence, splitSentences "Hello! World!".toList = [sentence] →
        ∃ audioData generr w1,
          generateAudio sampleEnv defaultConfig sentence true World.empty =
            some ((audioData, generr), w1) ∧
          r.err = if generr.isSome then generr
            else sampleEnv.sink (audioData.getD []) (audioFormat defaultConfig)
              [Event.println sentence]) :=
  ⟨by decide,
    streamingTTS_returns sampleEnv defaultConfig "Hello! World!".toList true World.empty
      (by decide) (fun _ _ _ _ h => AudioQueryReply.noConfusion h)⟩

end Aivisay
